import Mathlib

/-!
# ccn-lite-repo256: index tables and lookup resolver

A shallow embedding of `src/ccn-lite-repo256.c`.

* Byte strings (`unsigned char*` buffers) are lists of naturals, C strings are lists of
  characters, `int` offsets and lengths are integers.
* Pointers that the program may leave `NULL` (the four hash tables, `pkt`, `pkt->pfx`,
  the hash restriction of an Interest) are `Option`s.  Dereferencing `NULL` has no
  defined behaviour: the embedded function returns `none`.
* The TLV codecs, `ccnl_pkt2suite` and `ccnl_face_enqueue` live in files that are included
  by the program but are not part of it; the codec entry points are fields of `Codec`.
* The file system is a function from paths to what `stat`/`open`/`read` find there.
-/

namespace Repo256

/-! ## Bytes, digests, keys -/

abbrev Bytes := List Nat

abbrev Path := List Char

/-- SHA256_DIGEST_LENGTH, the length of a SHA-256 digest in bytes. -/
def SHA256_DIGEST_LENGTH : Nat := 32

/-- Suite tag CCNL_SUITE_CCNTLV (value as in ccnl-defs.h). -/
def CCNL_SUITE_CCNTLV : Int := 2

/-- Suite tag CCNL_SUITE_NDNTLV (value as in ccnl-defs.h). -/
def CCNL_SUITE_NDNTLV : Int := 6

/-- Packet type CCNX_TLV_TL_Interest (value as in ccnl-pkt-ccntlv.h). -/
def CCNX_TLV_TL_Interest : Nat := 1

/-- Packet type NDN_TLV_Interest (value as in ccnl-pkt-ndntlv.h). -/
def NDN_TLV_Interest : Nat := 5

/-- The two operating modes (the anonymous enum of the source). -/
inductive Mode where
  | MODE_FILE
  | MODE_INDEX
  deriving DecidableEq

/-- The test `!memcmp(a, b, n)`: the first `n` bytes of both buffers agree. -/
def memcmp_eq (a b : Bytes) (n : Nat) : Bool :=
  decide (a.take n = b.take n)

/-- The macro `sha256equal(a, b)`: comparison of the 33 key bytes. -/
def sha256equal (a b : Bytes) : Bool :=
  memcmp_eq a b (SHA256_DIGEST_LENGTH + 1)

/-- Key of the name map: `struct khPFX_s`, `len` being an `unsigned short`. -/
structure khPFX_s where
  len : Nat
  mem : Bytes
  deriving DecidableEq

/-- The macro `khPFXequal(a, b)`. -/
def khPFXequal (a b : khPFX_s) : Bool :=
  (a.len == b.len) && memcmp_eq a.mem b.mem a.len

/-- One lowercase hexadecimal digit, as printed by `%x`. -/
def hexdigit (n : Nat) : Char :=
  "0123456789abcdef".toList.getD (n % 16) '0'

/-- Output of `sprintf("%02x", b)` for an `unsigned char` b. -/
def hex2 (b : Nat) : List Char :=
  [hexdigit (b / 16 % 16), hexdigit (b % 16)]

/-- Hex rendering of the 32 digest bytes: `digest2str`. -/
def digest2str (md : Bytes) : List Char :=
  (md.take SHA256_DIGEST_LENGTH).flatMap hex2

/-- Canonical path of a digest below `dirpath`: `digest2fname`. -/
def digest2fname (dirpath : Path) (md : Bytes) : Path :=
  dirpath ++ ['/'] ++ hex2 (md.getD 0 0) ++ ['/'] ++ (digest2str md).drop 2

/-- Suite-qualified key: `digest2key`, the suite being stored into an `unsigned char`. -/
def digest2key (suite : Int) (digest : Bytes) : Bytes :=
  (suite % 256).toNat :: digest.take SHA256_DIGEST_LENGTH

/-! ## Packets and the codec interface -/

/-- The fields of `struct ccnl_prefix_s` the repository reads. -/
structure ccnl_prefix_s where
  suite : Nat
  name : Bytes
  deriving DecidableEq

/-- The fields of `struct ccnl_pkt_s` the repository reads; `objHashRestr` and
`dataHashRestr` are the members `s.ccntlv.objHashRestr` and `s.ndntlv.dataHashRestr`. -/
structure ccnl_pkt_s where
  type : Nat
  pfx : Option ccnl_prefix_s
  objHashRestr : Option Bytes
  dataHashRestr : Option Bytes
  md : Bytes
  buf : Bytes
  deriving DecidableEq

/-- Entry points of the packet codecs.  A buffer position is an offset into the byte list;
`bytes2pkt buffer start data datalen` returns the packet and the advanced `data`,
`datalen`; `pkt2suite buffer data datalen` returns the suite and `skip`. -/
structure Codec where
  ccnl_ccntlv_getHdrLen : Bytes → Int → Int → Int
  ccnl_ccntlv_bytes2pkt : Bytes → Int → Int → Int → Option ccnl_pkt_s × Int × Int
  ccnl_ndntlv_bytes2pkt : Bytes → Int → Int → Int → Option ccnl_pkt_s × Int × Int
  ccnl_pkt2suite : Bytes → Int → Int → Int × Int

/-! ## File system -/

/-- What a path leads to when `stat` succeeds: whether `open(O_RDONLY)` succeeds and the
bytes `read` delivers (`st_size` is their number). -/
structure File where
  readable : Bool
  data : Bytes
  deriving DecidableEq

abbrev FS := Path → Option File

/-- File system calls issued by the resolver. -/
inductive FsOp where
  | sys_stat (p : Path)
  | sys_open (p : Path)
  | sys_read (p : Path)
  deriving DecidableEq

/-! ## Hash tables -/

/-- Contents of a `khash_t(256)` set: the stored 33-byte keys. -/
abbrev kh256 := List Bytes

/-- Contents of the `khash_t(PFX)` map: stored name keys with their values. -/
abbrev khPFX := List (khPFX_s × Bytes)

/-- The stored key `kh_get(256, h, key)` finds, if any. -/
def kh_get_256 (h : kh256) (key : Bytes) : Option Bytes :=
  h.find? (fun k => sha256equal k key)

/-- Table after `kh_put(256, h, key, &absent)` and, when absent, storing a copy of the
key in the new slot. -/
def kh_put_256 (h : kh256) (key : Bytes) : kh256 :=
  match kh_get_256 h key with
  | some _ => h
  | none => h ++ [key]

/-- The key `kh_key(h, k)` of the slot returned by that `kh_put`. -/
def kh_put_256_key (h : kh256) (key : Bytes) : Bytes :=
  match kh_get_256 h key with
  | some stored => stored
  | none => key

/-- The entry `kh_get(PFX, h, n)` finds, if any. -/
def kh_get_PFX (h : khPFX) (n : khPFX_s) : Option (khPFX_s × Bytes) :=
  h.find? (fun e => khPFXequal e.1 n)

/-- Name key built from a packet prefix: `len = 1 + namelen` in an `unsigned short`,
`mem` the suite byte followed by the name bytes. -/
def prefix2key (pfx : ccnl_prefix_s) : khPFX_s :=
  { len := (1 + pfx.name.length) % 65536
    mem := (pfx.suite % 256) :: pfx.name }

/-! ## Program state -/

/-- The global variables of the program, the queue of buffers handed to
`ccnl_face_enqueue` (face id and bytes, oldest first) and the trace of file system calls
of the resolver. -/
structure Repo where
  repo_mode : Mode
  theDirPath : Path
  OKset : Option kh256
  ERset : Option kh256
  NOset : Option kh256
  NMmap : Option khPFX
  outq : List (Nat × Bytes)
  fslog : List FsOp

/-- Tables as `main` allocates them: `ERset` and `NOset` only in file mode. -/
def main_tables (mode : Mode) (dir : Path) : Repo :=
  { repo_mode := mode
    theDirPath := dir
    OKset := some []
    ERset := if mode = Mode.MODE_FILE then some [] else none
    NOset := if mode = Mode.MODE_FILE then some [] else none
    NMmap := some []
    outq := []
    fslog := [] }

/-- Modelled from the spec: `ccnl_face_enqueue` (ccnl-core.c) appends the reply buffer to
the queue of the originating face. -/
def ccnl_face_enqueue (st : Repo) (face : Nat) (buf : Bytes) : Repo :=
  { st with outq := st.outq ++ [(face, buf)] }

/-! ## The resolver `ccnl_repo256` -/

/-- The `switch(suite)` at the head of `ccnl_repo256`: decoding of the request at offset
`start`.  The first component is `none` where the source jumps to `Done`, otherwise the
packet with `requestByDigest`; the others are the advanced `*data` and `*datalen`. -/
def decode_interest (c : Codec) (suite : Int) (buf : Bytes) (start datalen : Int) :
    Option (ccnl_pkt_s × Option Bytes) × Int × Int :=
  if suite = CCNL_SUITE_CCNTLV then
    let hdrlen := c.ccnl_ccntlv_getHdrLen buf start datalen
    match c.ccnl_ccntlv_bytes2pkt buf start (start + hdrlen) (datalen - hdrlen) with
    | (none, data, len) => (none, data, len)
    | (some pkt, data, len) =>
      if pkt.type ≠ CCNX_TLV_TL_Interest then (none, data, len)
      else (some (pkt, pkt.objHashRestr), data, len)
  else if suite = CCNL_SUITE_NDNTLV then
    match c.ccnl_ndntlv_bytes2pkt buf start start datalen with
    | (none, data, len) => (none, data, len)
    | (some pkt, data, len) =>
      if pkt.type ≠ NDN_TLV_Interest then (none, data, len)
      else (some (pkt, pkt.dataHashRestr), data, len)
  else (none, start, datalen)

/-- Outcome of the lookup phase of `ccnl_repo256`. -/
inductive Lookup where
  | done
  | digest (d : Option Bytes)
  deriving DecidableEq

/-- The lookup phase of `ccnl_repo256` (`if (requestByDigest) ... else ...`): `done` where
the source jumps to `Done`, otherwise the value of the variable `digest`. -/
def lookup_digest (st : Repo) (suite : Int) (pkt : ccnl_pkt_s)
    (requestByDigest : Option Bytes) : Option Lookup :=
  match requestByDigest with
  | some req =>
    match st.repo_mode with
    | Mode.MODE_INDEX =>
      match st.OKset with
      | none => none
      | some ok =>
        match kh_get_256 ok (digest2key suite req) with
        | some _ => some (Lookup.digest (some req))
        | none => some (Lookup.digest none)
    | Mode.MODE_FILE =>
      let key := digest2key suite req
      match st.ERset with
      | none => none
      | some er =>
        match kh_get_256 er key with
        | some _ => some Lookup.done
        | none =>
          match st.NOset with
          | none => none
          | some no =>
            match kh_get_256 no key with
            | some _ => some Lookup.done
            | none => some (Lookup.digest (some req))
  | none =>
    match pkt.pfx with
    | none => none
    | some pfx =>
      match st.NMmap with
      | none => none
      | some nm =>
        match kh_get_PFX nm (prefix2key pfx) with
        | some e => some (Lookup.digest (some (e.2.drop 1)))
        | none => some (Lookup.digest none)

/-- The block `NOset += ...` of `ccnl_repo256`. -/
def NOset_add (st : Repo) (suite : Int) (digest : Bytes) : Option Repo :=
  match st.NOset with
  | none => none
  | some no => some { st with NOset := some (kh_put_256 no (digest2key suite digest)) }

/-- The block `badContent: ERset += ...` of `ccnl_repo256`. -/
def ERset_add (st : Repo) (suite : Int) (digest : Bytes) : Option Repo :=
  match st.ERset with
  | none => none
  | some er => some { st with ERset := some (kh_put_256 er (digest2key suite digest)) }

/-- Second parse of the file bytes in file mode (`switch(suite)` inside
`if (repo_mode == MODE_FILE)`), `dlen` being the result of `read`. -/
def reparse (c : Codec) (suite : Int) (filebuf : Bytes) (dlen : Int) : Option ccnl_pkt_s :=
  if suite = CCNL_SUITE_CCNTLV then
    let hdrlen := c.ccnl_ccntlv_getHdrLen filebuf 0 dlen
    (c.ccnl_ccntlv_bytes2pkt filebuf 0 (0 + hdrlen) (dlen - hdrlen)).1
  else if suite = CCNL_SUITE_NDNTLV then
    (c.ccnl_ndntlv_bytes2pkt filebuf 0 0 dlen).1
  else none

/-- The block `if (digest) ...` of `ccnl_repo256` for a non-NULL `digest`: the return
code and the new state. -/
def serve_digest (c : Codec) (fs : FS) (st : Repo) (face : Nat) (suite : Int)
    (digest : Bytes) : Option (Int × Repo) :=
  let path := digest2fname st.theDirPath digest
  let st1 := { st with fslog := st.fslog ++ [FsOp.sys_stat path] }
  match fs path with
  | none => (NOset_add st1 suite digest).map (fun s => (-1, s))
  | some file =>
    let st2 := { st1 with fslog := st1.fslog ++ [FsOp.sys_open path] }
    if file.readable = false then (ERset_add st2 suite digest).map (fun s => (-1, s))
    else
      let st3 := { st2 with fslog := st2.fslog ++ [FsOp.sys_read path] }
      match st.repo_mode with
      | Mode.MODE_FILE =>
        match reparse c suite file.data file.data.length with
        | none => (ERset_add st3 suite digest).map (fun s => (-1, s))
        | some pkt =>
          if memcmp_eq pkt.md digest SHA256_DIGEST_LENGTH then
            some (0, ccnl_face_enqueue st3 face file.data)
          else (ERset_add st3 suite digest).map (fun s => (-1, s))
      | Mode.MODE_INDEX => some (0, ccnl_face_enqueue st3 face file.data)

/-- Result of `ccnl_repo256`: return code, the advanced `*data` and `*datalen`, and the
program state. -/
structure Result where
  rc : Int
  data : Int
  datalen : Int
  repo : Repo

/-- The resolver `ccnl_repo256(repo, from, suite, skip, &data, &datalen)` on the
datagram `buf`. -/
def ccnl_repo256 (c : Codec) (fs : FS) (st : Repo) (face : Nat) (suite skip : Int)
    (buf : Bytes) (data datalen : Int) : Option Result :=
  match decode_interest c suite buf (data + skip) (datalen - skip) with
  | (none, data1, len1) => some ⟨-1, data1, len1, st⟩
  | (some (pkt, requestByDigest), data1, len1) =>
    match lookup_digest st suite pkt requestByDigest with
    | none => none
    | some Lookup.done => some ⟨-1, data1, len1, st⟩
    | some (Lookup.digest none) => some ⟨0, data1, len1, st⟩
    | some (Lookup.digest (some digest)) =>
      (serve_digest c fs st face suite digest).map (fun r => ⟨r.1, data1, len1, r.2⟩)

/-! ## The startup scanner `add_content` -/

/-- Size of the global `iobuf`. -/
def IOBUF_SIZE : Nat := 64 * 2014

/-- Parse of a stored file: `contentFile2packet`, returning the packet and `*suite`. -/
def contentFile2packet (c : Codec) (fs : FS) (path : Path) : Option (ccnl_pkt_s × Int) :=
  match fs path with
  | none => none
  | some file =>
    if file.readable = false then none
    else
      let iobuf := file.data.take IOBUF_SIZE
      let datalen : Int := iobuf.length
      if datalen ≤ 0 then none
      else
        let (suite, skip) := c.ccnl_pkt2suite iobuf 0 datalen
        if suite = CCNL_SUITE_CCNTLV then
          let hdrlen := c.ccnl_ccntlv_getHdrLen iobuf skip (datalen - skip)
          match (c.ccnl_ccntlv_bytes2pkt iobuf skip (skip + hdrlen)
              (datalen - skip - hdrlen)).1 with
          | none => none
          | some pkt => some (pkt, suite)
        else if suite = CCNL_SUITE_NDNTLV then
          match (c.ccnl_ndntlv_bytes2pkt iobuf skip skip (datalen - skip)).1 with
          | none => none
          | some pkt => some (pkt, suite)
        else none

/-- The scanner step `add_content(dirpath, path)`. -/
def add_content (c : Codec) (fs : FS) (st : Repo) (dirpath path : Path) : Option Repo :=
  match contentFile2packet c fs path with
  | none => some st
  | some (pkt, suite) =>
    let path2 := digest2fname dirpath pkt.md
    if st.repo_mode = Mode.MODE_INDEX ∧ path2 ≠ path then some st
    else
      match st.OKset with
      | none => none
      | some ok =>
        let key := digest2key suite pkt.md
        let st1 := { st with OKset := some (kh_put_256 ok key) }
        let stored := kh_put_256_key ok key
        match pkt.pfx with
        | none => some st1
        | some pfx =>
          match st.NMmap with
          | none => none
          | some nm =>
            let n := prefix2key pfx
            match kh_get_PFX nm n with
            | some _ => some st1
            | none => some { st1 with NMmap := some (nm ++ [(n, stored)]) }

/-! ## Reachable states -/

/-- States the program reaches from the tables of `main` by scanner steps and resolver
calls, every step seeing a file system that satisfies `F`. -/
inductive Reachable (c : Codec) (F : FS → Prop) (mode : Mode) (dir : Path) : Repo → Prop
  | start : Reachable c F mode dir (main_tables mode dir)
  | scan {st st2 : Repo} (fs : FS) (path : Path) :
      F fs → Reachable c F mode dir st → add_content c fs st dir path = some st2 →
      Reachable c F mode dir st2
  | resolve {st : Repo} {r : Result} (fs : FS) (face : Nat) (suite skip : Int)
      (buf : Bytes) (data datalen : Int) :
      F fs → Reachable c F mode dir st →
      ccnl_repo256 c fs st face suite skip buf data datalen = some r →
      Reachable c F mode dir r.repo

/-- Membership test `kh_get(256, OKset, k) != kh_end(OKset)`. -/
def okContains (st : Repo) (k : Bytes) : Prop :=
  ∃ ok, st.OKset = some ok ∧ (kh_get_256 ok k).isSome = true

/-- Membership test `kh_get(256, ERset, k) != kh_end(ERset)`. -/
def erContains (st : Repo) (k : Bytes) : Prop :=
  ∃ er, st.ERset = some er ∧ (kh_get_256 er k).isSome = true

/-- Membership test `kh_get(256, NOset, k) != kh_end(NOset)`. -/
def noContains (st : Repo) (k : Bytes) : Prop :=
  ∃ no, st.NOset = some no ∧ (kh_get_256 no k).isSome = true

/-! ## A small codec for concrete runs

Packets of four bytes `[marker, type, tag, a]`: the marker is the suite tag, tag 0 gives
the name `[a]`, tag 1 the hash restriction of 32 bytes `a`; the digest of the packet is
32 times the byte `(type + tag + a) % 256`. -/

def toy_bytes2pkt (marker : Nat) (buf : Bytes) (_start data datalen : Int) :
    Option ccnl_pkt_s × Int × Int :=
  if data < 0 ∨ datalen < 4 then (none, data, datalen)
  else
    match buf.drop data.toNat with
    | m :: ty :: tag :: a :: _ =>
      if m = marker then
        (some { type := ty
                pfx := if tag = 0 then some ⟨marker, [a]⟩ else none
                objHashRestr := if tag = 1 then some (List.replicate 32 a) else none
                dataHashRestr := if tag = 1 then some (List.replicate 32 a) else none
                md := List.replicate 32 ((ty + tag + a) % 256)
                buf := [m, ty, tag, a] }, data + 4, datalen - 4)
      else (none, data, datalen)
    | _ => (none, data, datalen)

def toy_pkt2suite (buf : Bytes) (data _datalen : Int) : Int × Int :=
  match buf.drop data.toNat with
  | 2 :: _ => (CCNL_SUITE_CCNTLV, 0)
  | 6 :: _ => (CCNL_SUITE_NDNTLV, 0)
  | _ => (-1, 0)

def toyCodec : Codec :=
  { ccnl_ccntlv_getHdrLen := fun _ _ _ => 0
    ccnl_ccntlv_bytes2pkt := toy_bytes2pkt 2
    ccnl_ndntlv_bytes2pkt := toy_bytes2pkt 6
    ccnl_pkt2suite := toy_pkt2suite }

/-- Repository root of the concrete runs. -/
def toyRoot : Path := ['r']

/-- An NDN Interest with hash restriction 32 times 7. -/
def toyInterestByDigest : Bytes := [6, 5, 1, 7]

/-- The packet `toyCodec` decodes from `toyInterestByDigest`. -/
def toyInterestByDigestPkt : ccnl_pkt_s :=
  { type := 5, pfx := none, objHashRestr := some (List.replicate 32 7),
    dataHashRestr := some (List.replicate 32 7), md := List.replicate 32 13,
    buf := [6, 5, 1, 7] }

/-- An NDN Interest for the name `[9]`. -/
def toyInterestByName : Bytes := [6, 5, 0, 9]

/-- The packet `toyCodec` decodes from `toyInterestByName`. -/
def toyInterestByNamePkt : ccnl_pkt_s :=
  { type := 5, pfx := some ⟨6, [9]⟩, objHashRestr := none, dataHashRestr := none,
    md := List.replicate 32 14, buf := [6, 5, 0, 9] }

/-- An NDN content object with name `[9]` whose digest is 32 times 7. -/
def toyContent : Bytes := [6, 254, 0, 9]

/-- The digest 32 times 7. -/
def toyDigest : Bytes := List.replicate 32 7

/-- A file system holding `toyContent` at its canonical path only. -/
def toyFS : FS := fun p =>
  if p = digest2fname toyRoot toyDigest then some ⟨true, toyContent⟩ else none

/-- The packet `toyCodec` parses from `toyContent`. -/
def toyContentPkt : ccnl_pkt_s :=
  { type := 254, pfx := some ⟨6, [9]⟩, objHashRestr := none, dataHashRestr := none,
    md := List.replicate 32 7, buf := [6, 254, 0, 9] }

/-- A second content object with the name `[9]`; its digest is 32 times 6. -/
def toyContent2 : Bytes := [6, 253, 0, 9]

/-- A file system holding `toyContent` and `toyContent2` at their canonical paths. -/
def toyTwoFS : FS := fun p =>
  if p = digest2fname toyRoot toyDigest then some ⟨true, toyContent⟩
  else if p = digest2fname toyRoot (List.replicate 32 6) then some ⟨true, toyContent2⟩
  else none

/-! ## Scans as sequences of scanner steps -/

/-- The scanner steps of one scan, in the order the files are met. -/
def scan_paths (c : Codec) (fs : FS) (dirpath : Path) : List Path → Repo → Option Repo
  | [], st => some st
  | path :: rest, st =>
    match add_content c fs st dirpath path with
    | none => none
    | some st2 => scan_paths c fs dirpath rest st2

/-! ## Hexadecimal encoding as the specification words it -/

/-- Lowercase hexadecimal numeral of a byte, padded with zeros to two characters: the
encoding the specification words as "hex of a byte". -/
def spec_hex_byte (b : Nat) : List Char :=
  List.replicate (2 - (Nat.toDigits 16 b).length) '0' ++ Nat.toDigits 16 b

/-- Lowercase hexadecimal encoding of a byte string, without separators. -/
def spec_hex (bs : Bytes) : List Char :=
  bs.flatMap spec_hex_byte

/-! ## Directory tree, scan and import -/

/-- Outcome of a loop run with a bound on its iterations or depth: the bound was too
small, the run had no defined result or left the program (NULL dereference, `exit`), or
it finished with a value. -/
inductive Run (α : Type) where
  | out_of_fuel
  | aborted
  | done (a : α)

/-- The value of a finished run. -/
def Run.value {α : Type} : Run α → Option α
  | Run.done a => some a
  | _ => none

/-- An `Option` result as a run: `none` is a run without defined result. -/
def Run.ofOption {α : Type} : Option α → Run α
  | some a => Run.done a
  | none => Run.aborted

/-- What a path names: a regular file, a symbolic link with its content, or a directory
with the names `readdir` delivers, in that order. -/
inductive Node where
  | reg (file : File)
  | lnk (target : List Char)
  | dir (names : List (List Char))

/-- The file tree, by full path.  Symbolic links are followed as the last component of a
path only. -/
abbrev Disk := Path → Option Node

/-- The values of `d_type` the program distinguishes. -/
inductive DType where
  | DT_REG
  | DT_LNK
  | DT_DIR
  | DT_UNKNOWN
  deriving DecidableEq

/-- The fields of `struct dirent` the program reads. -/
structure dirent where
  d_type : DType
  d_name : List Char

/-- The path `asprintf("%s/%s", path, name)`. -/
def child (path : Path) (name : List Char) : Path :=
  path ++ ['/'] ++ name

/-- The `d_type` of a directory entry, from the node it names. -/
def node_type : Option Node → DType
  | some (Node.reg _) => DType.DT_REG
  | some (Node.lnk _) => DType.DT_LNK
  | some (Node.dir _) => DType.DT_DIR
  | none => DType.DT_UNKNOWN

/-- The entries `opendir`/`readdir` deliver for `path`, `none` when `opendir` fails. -/
def readdir (disk : Disk) (path : Path) : Option (List dirent) :=
  match disk path with
  | some (Node.dir names) =>
    some (names.map (fun n => ⟨node_type (disk (child path n)), n⟩))
  | _ => none

/-- The directory part of a path. -/
def dirname (p : Path) : Path :=
  ((p.reverse.dropWhile (fun ch => ch ≠ '/')).drop 1).reverse

/-- The path a symbolic link at `p` with content `target` leads to: absolute targets,
targets starting with `../`, and targets relative to the directory of the link. -/
def resolve_link (p : Path) (target : List Char) : Path :=
  match target with
  | '/' :: _ => target
  | '.' :: '.' :: '/' :: rest => child (dirname (dirname p)) rest
  | _ => child (dirname p) target

/-- What `stat`, `open(O_RDONLY)` and `read` find at a path.  A directory is seen as
existing with nothing to read, which is what `file2iobuf` gets in the scanner and the
importer (`read` fails on it).  The resolver does not check the result of `read`; what it
sends for an object path that is a directory is not represented, and the statements about
the resolver over a tree are about object paths that are regular files. -/
def disk_view (disk : Disk) : FS := fun p =>
  match disk p with
  | some (Node.reg f) => some f
  | some (Node.dir _) => some ⟨false, []⟩
  | some (Node.lnk t) =>
    match disk (resolve_link p t) with
    | some (Node.reg f) => some f
    | some (Node.dir _) => some ⟨false, []⟩
    | _ => none
  | none => none

/-- The tree with node `n` at path `p`. -/
def disk_set (disk : Disk) (p : Path) (n : Node) : Disk :=
  fun q => if q = p then some n else disk q

/-- The call `mkdir(parent/name)` inside `assertDir`: `none` when it fails with an error
other than EEXIST (the program exits), otherwise the tree afterwards. -/
def sys_mkdir (disk : Disk) (parent : Path) (name : List Char) : Option Disk :=
  if (disk (child parent name)).isSome then some disk
  else
    match disk parent with
    | some (Node.dir names) =>
      some (disk_set (disk_set disk parent (Node.dir (names ++ [name])))
        (child parent name) (Node.dir []))
    | _ => none

/-- The helper `assertDir(dirpath, cp)`: creates `dirpath/cp[0]cp[1]` unless it exists. -/
def assertDir (disk : Disk) (dirpath : Path) (cp : List Char) : Option Disk :=
  sys_mkdir disk dirpath (cp.take 2)

/-- The last component of a path. -/
def basename (p : Path) : List Char :=
  (p.reverse.takeWhile (fun ch => ch ≠ '/')).reverse

/-- The calls `open(parent/name, O_CREAT | O_TRUNC | O_WRONLY)`, `write`, `close`: the
tree afterwards (unchanged when `open` fails).  An existing regular file is truncated
and written, a directory makes `open` fail, and a symbolic link is followed: its target
is written when it is a regular file and created when it is absent and its directory
exists.  As in `disk_view`, a link is followed one step, and only as the last component
of the path. -/
def sys_creat (disk : Disk) (parent : Path) (name : List Char) (data : Bytes) : Disk :=
  match disk (child parent name) with
  | some (Node.reg f) => disk_set disk (child parent name) (Node.reg ⟨f.readable, data⟩)
  | some (Node.dir _) => disk
  | some (Node.lnk t) =>
    match disk (resolve_link (child parent name) t) with
    | some (Node.reg f) =>
      disk_set disk (resolve_link (child parent name) t) (Node.reg ⟨f.readable, data⟩)
    | some _ => disk
    | none =>
      match disk (dirname (resolve_link (child parent name) t)) with
      | some (Node.dir names) =>
        disk_set (disk_set disk (dirname (resolve_link (child parent name) t))
            (Node.dir (names ++ [basename (resolve_link (child parent name) t)])))
          (resolve_link (child parent name) t) (Node.reg ⟨true, data⟩)
      | _ => disk
  | none =>
    match disk parent with
    | some (Node.dir names) =>
      disk_set (disk_set disk parent (Node.dir (names ++ [name])))
        (child parent name) (Node.reg ⟨true, data⟩)
    | _ => disk

/-- The call `symlink(target, parent/name)`: the tree afterwards (unchanged when it
fails). -/
def sys_symlink (disk : Disk) (parent : Path) (name : List Char) (target : List Char) :
    Disk :=
  if (disk (child parent name)).isSome then disk
  else
    match disk parent with
    | some (Node.dir names) =>
      disk_set (disk_set disk parent (Node.dir (names ++ [name])))
        (child parent name) (Node.lnk target)
    | _ => disk

/-- The scan `walk_fs(dirpath, path)`, to a depth of at most `fuel` directories. -/
def walk_fs (c : Codec) (disk : Disk) : Nat → Path → Path → Repo → Run Repo
  | 0, _, _, _ => Run.out_of_fuel
  | fuel + 1, dirpath, path, st =>
    match readdir disk path with
    | none => Run.done st
    | some entries =>
      entries.foldl (fun acc de =>
        match acc with
        | Run.done s =>
          match de.d_type with
          | DType.DT_REG =>
            Run.ofOption (add_content c (disk_view disk) s dirpath (child path de.d_name))
          | DType.DT_LNK =>
            if s.repo_mode = Mode.MODE_FILE then
              Run.ofOption (add_content c (disk_view disk) s dirpath (child path de.d_name))
            else Run.done s
          | DType.DT_DIR =>
            if de.d_name.head? ≠ some '.' then
              walk_fs c disk fuel dirpath (child path de.d_name) s
            else Run.done s
          | DType.DT_UNKNOWN => Run.done s
        | other => other) (Run.done st)

/-- The body of the importer for one regular file or link `walk`, `root` being
`theDirPath`: `none` when `assertDir` exits. -/
def import_file (c : Codec) (root : Path) (disk : Disk) (walk : Path) : Option Disk :=
  match contentFile2packet c (disk_view disk) walk with
  | none => some disk
  | some (pkt, _) =>
    let hashName := digest2fname root pkt.md
    let hex := digest2str pkt.md
    let stored : Option Disk :=
      if (disk_view disk hashName).isSome then some disk
      else
        match assertDir disk root hex with
        | none => none
        | some d1 =>
          some (sys_creat d1 (child root (hex2 (pkt.md.getD 0 0))) (hex.drop 2) pkt.buf)
    match stored with
    | none => none
    | some d2 =>
      match pkt.pfx with
      | none => some d2
      | some _ =>
        if (disk_view d2 (child (child root ['z', 'z']) hex)).isSome then some d2
        else
          match assertDir d2 root ['z', 'z'] with
          | none => none
          | some d3 =>
            some (sys_symlink d3 (child root ['z', 'z']) hex
              (['.', '.', '/'] ++ hex.take 2 ++ ['/'] ++ hex.drop 2))

/-- The importer `ccnl_repo256_import(dir)`, to a depth of at most `fuel` directories. -/
def ccnl_repo256_import (c : Codec) (root : Path) : Nat → Path → Disk → Run Disk
  | 0, _, _ => Run.out_of_fuel
  | fuel + 1, dir, disk =>
    match readdir disk dir with
    | none => Run.done disk
    | some entries =>
      entries.foldl (fun acc de =>
        match acc with
        | Run.done d =>
          match de.d_type with
          | DType.DT_LNK => Run.ofOption (import_file c root d (child dir de.d_name))
          | DType.DT_REG => Run.ofOption (import_file c root d (child dir de.d_name))
          | DType.DT_DIR =>
            if de.d_name.head? ≠ some '.' then
              ccnl_repo256_import c root fuel (child dir de.d_name) d
            else Run.done d
          | DType.DT_UNKNOWN => Run.done d
        | other => other) (Run.done disk)

/-- State after a reply was enqueued for `face`: the trace gains `stat`, `open` and
`read` of the path, the queue gains the buffer. -/
def served (st : Repo) (face : Nat) (path : Path) (B : Bytes) : Repo :=
  ccnl_face_enqueue
    { st with fslog := st.fslog ++ [FsOp.sys_stat path] ++ [FsOp.sys_open path]
                ++ [FsOp.sys_read path] } face B

/-- Framing helpers of the core the dispatcher calls.  `ccnl_switch_dehead buffer data
datalen` is `none` when the call fails (it then leaves `data` and `datalen` alone),
otherwise the advanced `data`, `datalen` and the encoding code. -/
structure Framing where
  ccnl_switch_dehead : Bytes → Int → Int → Option (Int × Int × Int)
  ccnl_enc2suite : Int → Int
  ccnl_isSuite : Int → Bool

/-- The inner loop `while (!ccnl_switch_dehead(...)) suite = ccnl_enc2suite(enc)`, at most
`fuel` tests: the values of `data`, `datalen` and `suite` after it. -/
def switch_loop (fr : Framing) (buf : Bytes) : Nat → Int → Int → Int → Run (Int × Int × Int)
  | 0, _, _, _ => Run.out_of_fuel
  | fuel + 1, data, datalen, suite =>
    match fr.ccnl_switch_dehead buf data datalen with
    | some (data2, len2, enc) => switch_loop fr buf fuel data2 len2 (fr.ccnl_enc2suite enc)
    | none => Run.done (data, datalen, suite)

/-- The packet loop `while (datalen > 0)` of `ccnl_repo_RX`, at most `fuel` tests of its
condition. -/
def rx_loop (c : Codec) (fr : Framing) (fs : FS) (face : Nat) (buf : Bytes) :
    Nat → Repo → Int → Int → Int → Int → Run Repo
  | 0, _, _, _, _, _ => Run.out_of_fuel
  | fuel + 1, st, data, datalen, suite, skip =>
    if datalen > 0 then
      match switch_loop fr buf (fuel + 1) data datalen suite with
      | Run.out_of_fuel => Run.out_of_fuel
      | Run.aborted => Run.aborted
      | Run.done (data1, len1, suite1) =>
        let ss := if suite1 = -1 then c.ccnl_pkt2suite buf data1 len1 else (suite1, skip)
        if fr.ccnl_isSuite ss.1 = false then Run.done st
        else
          match ccnl_repo256 c fs st face ss.1 ss.2 buf data1 len1 with
          | none => Run.aborted
          | some r =>
            if r.rc < 0 then Run.done r.repo
            else rx_loop c fr fs face buf fuel r.repo r.data r.datalen ss.1 ss.2
    else Run.done st

/-- The dispatcher `ccnl_repo_RX` on the datagram `buf` of `datalen` bytes.  `face` is
the result of `ccnl_get_face_or_create`, `skip0` the value the uninitialised variable
`skip` happens to hold. -/
def ccnl_repo_RX (c : Codec) (fr : Framing) (fs : FS) (st : Repo) (face : Option Nat)
    (buf : Bytes) (datalen : Int) (skip0 : Int) (fuel : Nat) : Run Repo :=
  match face with
  | none => Run.done st
  | some f => rx_loop c fr fs f buf fuel st 0 datalen (-1) skip0

/-- Framing for the concrete runs: a switch header is the byte 128 followed by the
encoding code, the codes are the suite tags, the suites are those the program compiles
in. -/
def toyFraming : Framing :=
  { ccnl_switch_dehead := fun buf data datalen =>
      if datalen < 2 ∨ data < 0 then none
      else
        match buf.drop data.toNat with
        | 128 :: enc :: _ => if enc < 253 then some (data + 2, datalen - 2, enc) else none
        | _ => none
    ccnl_enc2suite := fun enc => enc
    ccnl_isSuite := fun s => s == CCNL_SUITE_CCNTLV || s == CCNL_SUITE_NDNTLV }

/-- The packet `toyCodec` parses from `toyContent2`. -/
def toyContent2Pkt : ccnl_pkt_s :=
  { type := 253, pfx := some ⟨6, [9]⟩, objHashRestr := none, dataHashRestr := none,
    md := List.replicate 32 6, buf := [6, 253, 0, 9] }

/-- The packet `toyCodec` decodes from the Interest `[6, 5, 1, 6]`. -/
def toyInterest2Pkt : ccnl_pkt_s :=
  { type := 5, pfx := none, objHashRestr := some (List.replicate 32 6),
    dataHashRestr := some (List.replicate 32 6), md := List.replicate 32 12,
    buf := [6, 5, 1, 6] }

/-- A tree with an empty repository root `r` and a source directory `s` holding
`toyContent` in the file `f`. -/
def toyDisk0 : Disk := fun p =>
  if p = ['r'] then some (Node.dir [])
  else if p = ['s'] then some (Node.dir [['f']])
  else if p = ['s', '/', 'f'] then some (Node.reg ⟨true, toyContent⟩)
  else none

/-! ## Repeated scans and the order of the scan -/

/-- The tables of `st2` extend those of `st1`: same mode, and OKset and NMmap of `st1`,
where allocated, are initial segments of those of `st2`. -/
def TablesExtend (st1 st2 : Repo) : Prop :=
  st2.repo_mode = st1.repo_mode ∧
  (∀ ok, st1.OKset = some ok → ∃ ext, st2.OKset = some (ok ++ ext)) ∧
  (∀ nm, st1.NMmap = some nm → ∃ ext, st2.NMmap = some (nm ++ ext))

theorem sha256equal_self (k : Bytes) : sha256equal k k = true := by
  simp [sha256equal, memcmp_eq]

theorem kh_get_256_put (h : kh256) (key : Bytes) :
    (kh_get_256 (kh_put_256 h key) key).isSome = true := by
  unfold kh_put_256
  cases hget : kh_get_256 h key with
  | some v => simp [hget]
  | none =>
    simp only [kh_get_256, List.find?_append]
    simp [sha256equal_self]

theorem kh_put_256_mem (h : kh256) (key k : Bytes) (hk : k ∈ kh_put_256 h key) :
    k ∈ h ∨ (k = key ∧ kh_get_256 h key = none) := by
  unfold kh_put_256 at hk
  cases hget : kh_get_256 h key with
  | some v => rw [hget] at hk; exact Or.inl hk
  | none =>
    rw [hget] at hk
    rcases List.mem_append.mp hk with h1 | h1
    · exact Or.inl h1
    · exact Or.inr ⟨by simpa using h1, rfl⟩

theorem kh_put_256_key_mem (h : kh256) (key : Bytes) :
    kh_put_256_key h key ∈ kh_put_256 h key := by
  unfold kh_put_256_key kh_put_256
  cases hget : kh_get_256 h key with
  | some v => exact List.mem_of_find?_eq_some hget
  | none => simp

theorem kh_put_256_subset (h : kh256) (key k : Bytes) (hk : k ∈ h) :
    k ∈ kh_put_256 h key := by
  unfold kh_put_256
  cases kh_get_256 h key with
  | some v => exact hk
  | none => exact List.mem_append_left _ hk

/-- The resolver once the request is decoded: the lookup phase followed by the serving
block. -/
theorem ccnl_repo256_decoded (c : Codec) (fs : FS) (st : Repo) (face : Nat)
    (suite skip : Int) (buf : Bytes) (data datalen : Int) (pkt : ccnl_pkt_s)
    (req : Option Bytes)
    (hdec : (decode_interest c suite buf (data + skip) (datalen - skip)).1
      = some (pkt, req)) :
    ccnl_repo256 c fs st face suite skip buf data datalen =
      match lookup_digest st suite pkt req with
      | none => none
      | some Lookup.done =>
        some ⟨-1, (decode_interest c suite buf (data + skip) (datalen - skip)).2.1,
          (decode_interest c suite buf (data + skip) (datalen - skip)).2.2, st⟩
      | some (Lookup.digest none) =>
        some ⟨0, (decode_interest c suite buf (data + skip) (datalen - skip)).2.1,
          (decode_interest c suite buf (data + skip) (datalen - skip)).2.2, st⟩
      | some (Lookup.digest (some digest)) =>
        (serve_digest c fs st face suite digest).map (fun r =>
          ⟨r.1, (decode_interest c suite buf (data + skip) (datalen - skip)).2.1,
            (decode_interest c suite buf (data + skip) (datalen - skip)).2.2, r.2⟩) := by
  unfold ccnl_repo256
  rcases hd : decode_interest c suite buf (data + skip) (datalen - skip) with ⟨o, d1, l1⟩
  rw [hd] at hdec
  simp only at hdec
  subst hdec
  rfl

/-! ## Index mode: requests by digest -/

/-- C4: in index mode, an Interest of suite `suite` with digest restriction `d` whose key
is in OKset, the file at `digest2fname root d` existing and being readable with contents
`B`, makes the resolver return with exactly one more buffer on the queue, enqueued for
the originating face, and that buffer is `B` itself. -/
theorem index_mode_reply_is_file_bytes (c : Codec) (fs : FS) (st : Repo) (face : Nat)
    (suite skip : Int) (buf : Bytes) (data datalen : Int) (pkt : ccnl_pkt_s)
    (d B : Bytes) (ok : kh256)
    (hmode : st.repo_mode = Mode.MODE_INDEX)
    (hok : st.OKset = some ok)
    (hdec : (decode_interest c suite buf (data + skip) (datalen - skip)).1
      = some (pkt, some d))
    (hin : (kh_get_256 ok (digest2key suite d)).isSome = true)
    (hfile : fs (digest2fname st.theDirPath d) = some ⟨true, B⟩) :
    ∃ r, ccnl_repo256 c fs st face suite skip buf data datalen = some r ∧
      r.rc = 0 ∧ r.repo.outq = st.outq ++ [(face, B)] := by
  rw [ccnl_repo256_decoded c fs st face suite skip buf data datalen pkt (some d) hdec]
  obtain ⟨v, hv⟩ := Option.isSome_iff_exists.mp hin
  simp [lookup_digest, hmode, hok, hv, serve_digest, hfile, ccnl_face_enqueue]

theorem index_mode_reply_is_file_bytes_witness :
    (main_tables Mode.MODE_INDEX toyRoot).repo_mode = Mode.MODE_INDEX ∧
    ({ main_tables Mode.MODE_INDEX toyRoot with
        OKset := some [digest2key 6 toyDigest] } : Repo).OKset
      = some [digest2key 6 toyDigest] ∧
    (kh_get_256 [digest2key 6 toyDigest] (digest2key 6 toyDigest)).isSome = true ∧
    toyFS (digest2fname toyRoot toyDigest) = some ⟨true, toyContent⟩ ∧
    ∃ r, ccnl_repo256 toyCodec toyFS
        { main_tables Mode.MODE_INDEX toyRoot with OKset := some [digest2key 6 toyDigest] }
        3 6 0 toyInterestByDigest 0 4 = some r ∧
      r.rc = 0 ∧ r.repo.outq = [] ++ [(3, toyContent)] :=
  ⟨rfl, rfl, by decide, by decide,
    index_mode_reply_is_file_bytes toyCodec toyFS
      { main_tables Mode.MODE_INDEX toyRoot with OKset := some [digest2key 6 toyDigest] }
      3 6 0 toyInterestByDigest 0 4
      toyInterestByDigestPkt
      toyDigest toyContent [digest2key 6 toyDigest] rfl rfl (by decide) (by decide)
      (by decide)⟩

/-- C5: in index mode, an Interest with digest restriction `d` whose key is not in OKset
(in particular when OKset is empty) makes the resolver return with the whole state as it
was: nothing enqueued, no file system call traced, OKset, NMmap, ERset and NOset
unchanged. -/
theorem index_mode_unknown_digest_dropped (c : Codec) (fs : FS) (st : Repo) (face : Nat)
    (suite skip : Int) (buf : Bytes) (data datalen : Int) (pkt : ccnl_pkt_s)
    (d : Bytes) (ok : kh256)
    (hmode : st.repo_mode = Mode.MODE_INDEX)
    (hok : st.OKset = some ok)
    (hdec : (decode_interest c suite buf (data + skip) (datalen - skip)).1
      = some (pkt, some d))
    (hout : ok = [] ∨ kh_get_256 ok (digest2key suite d) = none) :
    ∃ r, ccnl_repo256 c fs st face suite skip buf data datalen = some r ∧
      r.repo = st ∧ r.repo.outq = st.outq ∧ r.repo.fslog = st.fslog := by
  have hget : kh_get_256 ok (digest2key suite d) = none := by
    rcases hout with h | h
    · subst h; rfl
    · exact h
  rw [ccnl_repo256_decoded c fs st face suite skip buf data datalen pkt (some d) hdec]
  simp [lookup_digest, hmode, hok, hget]

theorem index_mode_unknown_digest_dropped_witness :
    (main_tables Mode.MODE_INDEX toyRoot).repo_mode = Mode.MODE_INDEX ∧
    (main_tables Mode.MODE_INDEX toyRoot).OKset = some [] ∧
    ∃ r, ccnl_repo256 toyCodec toyFS (main_tables Mode.MODE_INDEX toyRoot)
        3 6 0 toyInterestByDigest 0 4 = some r ∧
      r.repo = main_tables Mode.MODE_INDEX toyRoot ∧
      r.repo.outq = (main_tables Mode.MODE_INDEX toyRoot).outq ∧
      r.repo.fslog = (main_tables Mode.MODE_INDEX toyRoot).fslog :=
  ⟨rfl, rfl,
    index_mode_unknown_digest_dropped toyCodec toyFS (main_tables Mode.MODE_INDEX toyRoot)
      3 6 0 toyInterestByDigest 0 4
      toyInterestByDigestPkt
      toyDigest [] rfl rfl (by decide) (Or.inl rfl)⟩

/-! ## File mode: negative caches and requests by digest -/

/-- C7: in file mode, an Interest with digest restriction `d` whose key is in ERset or in
NOset makes the resolver return (with -1) with the whole state as it was: no file system
call traced, nothing enqueued, all tables unchanged. -/
theorem file_mode_negative_cache_hit (c : Codec) (fs : FS) (st : Repo) (face : Nat)
    (suite skip : Int) (buf : Bytes) (data datalen : Int) (pkt : ccnl_pkt_s)
    (d : Bytes) (er no : kh256)
    (hmode : st.repo_mode = Mode.MODE_FILE)
    (her : st.ERset = some er)
    (hno : st.NOset = some no)
    (hdec : (decode_interest c suite buf (data + skip) (datalen - skip)).1
      = some (pkt, some d))
    (hin : (kh_get_256 er (digest2key suite d)).isSome = true ∨
      (kh_get_256 no (digest2key suite d)).isSome = true) :
    ∃ r, ccnl_repo256 c fs st face suite skip buf data datalen = some r ∧
      r.rc = -1 ∧ r.repo = st ∧ r.repo.outq = st.outq ∧ r.repo.fslog = st.fslog := by
  rw [ccnl_repo256_decoded c fs st face suite skip buf data datalen pkt (some d) hdec]
  cases h1 : kh_get_256 er (digest2key suite d) with
  | some v => simp [lookup_digest, hmode, her, h1]
  | none =>
    rw [h1] at hin
    simp only [Option.isSome_none, Bool.false_eq_true, false_or] at hin
    obtain ⟨v, hv⟩ := Option.isSome_iff_exists.mp hin
    simp [lookup_digest, hmode, her, hno, h1, hv]

theorem file_mode_negative_cache_hit_witness :
    ({ main_tables Mode.MODE_FILE toyRoot with
        NOset := some [digest2key 6 toyDigest] } : Repo).repo_mode = Mode.MODE_FILE ∧
    ((kh_get_256 [] (digest2key 6 toyDigest)).isSome = true ∨
      (kh_get_256 [digest2key 6 toyDigest] (digest2key 6 toyDigest)).isSome = true) ∧
    ∃ r, ccnl_repo256 toyCodec toyFS
        { main_tables Mode.MODE_FILE toyRoot with NOset := some [digest2key 6 toyDigest] }
        3 6 0 toyInterestByDigest 0 4 = some r ∧
      r.rc = -1 ∧
      r.repo = { main_tables Mode.MODE_FILE toyRoot with
        NOset := some [digest2key 6 toyDigest] } ∧
      r.repo.outq = [] ∧ r.repo.fslog = [] :=
  ⟨rfl, Or.inr (by decide),
    file_mode_negative_cache_hit toyCodec toyFS
      { main_tables Mode.MODE_FILE toyRoot with NOset := some [digest2key 6 toyDigest] }
      3 6 0 toyInterestByDigest 0 4
      toyInterestByDigestPkt
      toyDigest [] [digest2key 6 toyDigest] rfl rfl rfl (by decide)
      (Or.inr (by decide))⟩

theorem NOset_add_eq (st : Repo) (suite : Int) (digest : Bytes) (no : kh256)
    (hno : st.NOset = some no) :
    NOset_add st suite digest
      = some { st with NOset := some (kh_put_256 no (digest2key suite digest)) } := by
  simp [NOset_add, hno]

theorem ERset_add_eq (st : Repo) (suite : Int) (digest : Bytes) (er : kh256)
    (her : st.ERset = some er) :
    ERset_add st suite digest
      = some { st with ERset := some (kh_put_256 er (digest2key suite digest)) } := by
  simp [ERset_add, her]

/-- C10: in file mode, when the Interest resolves to digest `d` (so a digest restriction
is in neither negative cache) and `stat` finds nothing at `digest2fname root d`, the
resolver returns with the key `digest2key suite d` in NOset, nothing enqueued, and
ERset, OKset and NMmap unchanged. -/
theorem file_mode_missing_file_goes_to_NOset (c : Codec) (fs : FS) (st : Repo)
    (face : Nat) (suite skip : Int) (buf : Bytes) (data datalen : Int)
    (pkt : ccnl_pkt_s) (req : Option Bytes) (d : Bytes) (no : kh256)
    (_hmode : st.repo_mode = Mode.MODE_FILE)
    (hno : st.NOset = some no)
    (hdec : (decode_interest c suite buf (data + skip) (datalen - skip)).1
      = some (pkt, req))
    (hlook : lookup_digest st suite pkt req = some (Lookup.digest (some d)))
    (hfile : fs (digest2fname st.theDirPath d) = none) :
    ∃ r, ccnl_repo256 c fs st face suite skip buf data datalen = some r ∧
      noContains r.repo (digest2key suite d) ∧ r.repo.outq = st.outq ∧
      r.repo.ERset = st.ERset ∧ r.repo.OKset = st.OKset ∧ r.repo.NMmap = st.NMmap := by
  rw [ccnl_repo256_decoded c fs st face suite skip buf data datalen pkt req hdec, hlook]
  simp only [serve_digest, hfile]
  rw [NOset_add_eq _ suite d no (by simpa using hno)]
  refine ⟨_, rfl, ⟨_, rfl, kh_get_256_put no _⟩, rfl, rfl, rfl, rfl⟩

theorem file_mode_missing_file_goes_to_NOset_witness :
    (main_tables Mode.MODE_FILE toyRoot).repo_mode = Mode.MODE_FILE ∧
    lookup_digest (main_tables Mode.MODE_FILE toyRoot) 6 toyInterestByDigestPkt
      (some toyDigest) = some (Lookup.digest (some toyDigest)) ∧
    (fun _ => none : FS) (digest2fname toyRoot toyDigest) = none ∧
    ∃ r, ccnl_repo256 toyCodec (fun _ => none) (main_tables Mode.MODE_FILE toyRoot)
        3 6 0 toyInterestByDigest 0 4 = some r ∧
      noContains r.repo (digest2key 6 toyDigest) ∧
      r.repo.outq = (main_tables Mode.MODE_FILE toyRoot).outq ∧
      r.repo.ERset = (main_tables Mode.MODE_FILE toyRoot).ERset ∧
      r.repo.OKset = (main_tables Mode.MODE_FILE toyRoot).OKset ∧
      r.repo.NMmap = (main_tables Mode.MODE_FILE toyRoot).NMmap :=
  ⟨rfl, by decide, rfl,
    file_mode_missing_file_goes_to_NOset toyCodec (fun _ => none)
      (main_tables Mode.MODE_FILE toyRoot) 3 6 0 toyInterestByDigest 0 4
      toyInterestByDigestPkt (some toyDigest) toyDigest [] rfl rfl (by decide)
      (by decide) rfl⟩

/-- C9: in file mode, when the Interest resolves to digest `d` (so a digest restriction
is in neither negative cache) and a file exists at `digest2fname root d` whose bytes do
not parse under the suite, or parse to a packet whose digest differs from `d`, the
resolver returns with the key `digest2key suite d` in ERset and nothing enqueued. -/
theorem file_mode_bad_file_goes_to_ERset (c : Codec) (fs : FS) (st : Repo)
    (face : Nat) (suite skip : Int) (buf : Bytes) (data datalen : Int)
    (pkt : ccnl_pkt_s) (req : Option Bytes) (d : Bytes) (er : kh256) (file : File)
    (hmode : st.repo_mode = Mode.MODE_FILE)
    (her : st.ERset = some er)
    (hdec : (decode_interest c suite buf (data + skip) (datalen - skip)).1
      = some (pkt, req))
    (hlook : lookup_digest st suite pkt req = some (Lookup.digest (some d)))
    (hfile : fs (digest2fname st.theDirPath d) = some file)
    (hbad : reparse c suite file.data file.data.length = none ∨
      ∃ p, reparse c suite file.data file.data.length = some p ∧
        p.md.take SHA256_DIGEST_LENGTH ≠ d.take SHA256_DIGEST_LENGTH) :
    ∃ r, ccnl_repo256 c fs st face suite skip buf data datalen = some r ∧
      erContains r.repo (digest2key suite d) ∧ r.repo.outq = st.outq := by
  rw [ccnl_repo256_decoded c fs st face suite skip buf data datalen pkt req hdec, hlook]
  simp only [serve_digest, hfile, hmode]
  by_cases hr : file.readable = false
  · rw [if_pos hr, ERset_add_eq _ suite d er (by simpa using her)]
    exact ⟨_, rfl, ⟨_, rfl, kh_get_256_put er _⟩, rfl⟩
  · rw [if_neg hr]
    rcases hbad with hb | ⟨p, hb, hne⟩
    · rw [hb]
      simp only
      rw [ERset_add_eq _ suite d er (by simpa using her)]
      exact ⟨_, rfl, ⟨_, rfl, kh_get_256_put er _⟩, rfl⟩
    · rw [hb]
      simp only
      have hm : memcmp_eq p.md d SHA256_DIGEST_LENGTH = false := by
        simpa [memcmp_eq] using hne
      rw [hm]
      simp only [Bool.false_eq_true, if_false]
      rw [ERset_add_eq _ suite d er (by simpa using her)]
      exact ⟨_, rfl, ⟨_, rfl, kh_get_256_put er _⟩, rfl⟩

/-- A file system whose file at the canonical path of `toyDigest` has a flipped byte. -/
def toyCorruptFS : FS := fun p =>
  if p = digest2fname toyRoot toyDigest then some ⟨true, [6, 254, 0, 8]⟩ else none

theorem file_mode_bad_file_goes_to_ERset_witness :
    (main_tables Mode.MODE_FILE toyRoot).repo_mode = Mode.MODE_FILE ∧
    lookup_digest (main_tables Mode.MODE_FILE toyRoot) 6 toyInterestByDigestPkt
      (some toyDigest) = some (Lookup.digest (some toyDigest)) ∧
    toyCorruptFS (digest2fname toyRoot toyDigest) = some ⟨true, [6, 254, 0, 8]⟩ ∧
    ∃ r, ccnl_repo256 toyCodec toyCorruptFS (main_tables Mode.MODE_FILE toyRoot)
        3 6 0 toyInterestByDigest 0 4 = some r ∧
      erContains r.repo (digest2key 6 toyDigest) ∧
      r.repo.outq = (main_tables Mode.MODE_FILE toyRoot).outq :=
  ⟨rfl, by decide, by decide,
    file_mode_bad_file_goes_to_ERset toyCodec toyCorruptFS
      (main_tables Mode.MODE_FILE toyRoot) 3 6 0 toyInterestByDigest 0 4
      toyInterestByDigestPkt (some toyDigest) toyDigest [] ⟨true, [6, 254, 0, 8]⟩
      rfl rfl (by decide) (by decide) (by decide)
      (Or.inr ⟨(toy_bytes2pkt 6 [6, 254, 0, 8] 0 0 4).1.getD toyInterestByDigestPkt,
        by decide, by decide⟩)⟩

/-! ## File mode: replies are verified -/

theorem NOset_add_outq (st st2 : Repo) (suite : Int) (digest : Bytes)
    (h : NOset_add st suite digest = some st2) : st2.outq = st.outq := by
  unfold NOset_add at h
  cases hno : st.NOset with
  | none => simp [hno] at h
  | some no => simp [hno] at h; subst h; rfl

theorem ERset_add_outq (st st2 : Repo) (suite : Int) (digest : Bytes)
    (h : ERset_add st suite digest = some st2) : st2.outq = st.outq := by
  unfold ERset_add at h
  cases her : st.ERset with
  | none => simp [her] at h
  | some er => simp [her] at h; subst h; rfl

/-- The serving block in file mode either enqueues nothing or enqueues the bytes of the
file at the canonical path, which parse to a packet with the digest looked for. -/
theorem serve_digest_file_mode (c : Codec) (fs : FS) (st : Repo) (face : Nat)
    (suite : Int) (d : Bytes) (res : Int × Repo)
    (hmode : st.repo_mode = Mode.MODE_FILE)
    (h : serve_digest c fs st face suite d = some res) :
    res.2.outq = st.outq ∨
    ∃ B p, fs (digest2fname st.theDirPath d) = some ⟨true, B⟩ ∧
      res.2.outq = st.outq ++ [(face, B)] ∧
      reparse c suite B B.length = some p ∧
      p.md.take SHA256_DIGEST_LENGTH = d.take SHA256_DIGEST_LENGTH := by
  simp only [serve_digest, hmode] at h
  cases hf : fs (digest2fname st.theDirPath d) with
  | none =>
    rw [hf] at h
    simp only [Option.map_eq_some'] at h
    obtain ⟨s, hs, rfl⟩ := h
    have h2 := NOset_add_outq _ _ _ _ hs
    exact Or.inl h2
  | some file =>
    rw [hf] at h
    simp only at h
    by_cases hr : file.readable = false
    · rw [if_pos hr] at h
      simp only [Option.map_eq_some'] at h
      obtain ⟨s, hs, rfl⟩ := h
      have h2 := ERset_add_outq _ _ _ _ hs
      exact Or.inl h2
    · rw [if_neg hr] at h
      cases hp : reparse c suite file.data file.data.length with
      | none =>
        rw [hp] at h
        simp only [Option.map_eq_some'] at h
        obtain ⟨s, hs, rfl⟩ := h
        have h2 := ERset_add_outq _ _ _ _ hs
        exact Or.inl h2
      | some p =>
        rw [hp] at h
        simp only at h
        by_cases hm : memcmp_eq p.md d SHA256_DIGEST_LENGTH = true
        · rw [if_pos hm] at h
          simp only [Option.some.injEq] at h
          subst h
          refine Or.inr ⟨file.data, p, ?_, rfl, hp, by simpa [memcmp_eq] using hm⟩
          have : file.readable = true := by simpa using hr
          cases file with
          | mk rd dt => simp at this; subst this; rfl
        · rw [if_neg hm] at h
          simp only [Option.map_eq_some'] at h
          obtain ⟨s, hs, rfl⟩ := h
          have h2 := ERset_add_outq _ _ _ _ hs
          exact Or.inl h2

/-- C1: in file mode, whenever the resolver returns, either it enqueued nothing or the
request decoded to an Interest that resolved to a digest `d`, exactly one buffer `B` was
enqueued (for the originating face), `B` is the readable file at `digest2fname root d`,
parsing `B` again under the suite succeeds, and the digest `md` of the parsed packet
equals `d` on all 32 bytes. -/
theorem file_mode_reply_digest_verified (c : Codec) (fs : FS) (st : Repo) (face : Nat)
    (suite skip : Int) (buf : Bytes) (data datalen : Int) (r : Result)
    (hmode : st.repo_mode = Mode.MODE_FILE)
    (hrun : ccnl_repo256 c fs st face suite skip buf data datalen = some r) :
    r.repo.outq = st.outq ∨
    ∃ pkt req d B p,
      (decode_interest c suite buf (data + skip) (datalen - skip)).1 = some (pkt, req) ∧
      lookup_digest st suite pkt req = some (Lookup.digest (some d)) ∧
      fs (digest2fname st.theDirPath d) = some ⟨true, B⟩ ∧
      r.repo.outq = st.outq ++ [(face, B)] ∧
      reparse c suite B B.length = some p ∧
      p.md.take SHA256_DIGEST_LENGTH = d.take SHA256_DIGEST_LENGTH := by
  cases hd : (decode_interest c suite buf (data + skip) (datalen - skip)).1 with
  | none =>
    left
    unfold ccnl_repo256 at hrun
    rcases hd2 : decode_interest c suite buf (data + skip) (datalen - skip)
      with ⟨o, d1, l1⟩
    rw [hd2] at hd hrun
    simp only at hd
    subst hd
    simp only [Option.some.injEq] at hrun
    subst hrun
    rfl
  | some pr =>
    obtain ⟨pkt, req⟩ := pr
    rw [ccnl_repo256_decoded c fs st face suite skip buf data datalen pkt req hd] at hrun
    cases hl : lookup_digest st suite pkt req with
    | none => rw [hl] at hrun; simp at hrun
    | some l =>
      rw [hl] at hrun
      cases l with
      | done =>
        simp only [Option.some.injEq] at hrun
        subst hrun
        exact Or.inl rfl
      | digest od =>
        cases od with
        | none =>
          simp only [Option.some.injEq] at hrun
          subst hrun
          exact Or.inl rfl
        | some d =>
          simp only [Option.map_eq_some'] at hrun
          obtain ⟨res, hres, rfl⟩ := hrun
          rcases serve_digest_file_mode c fs st face suite d res hmode hres with h | h
          · exact Or.inl h
          · obtain ⟨B, p, h1, h2, h3, h4⟩ := h
            exact Or.inr ⟨pkt, req, d, B, p, rfl, hl, h1, h2, h3, h4⟩

theorem file_mode_reply_digest_verified_witness :
    (main_tables Mode.MODE_FILE toyRoot).repo_mode = Mode.MODE_FILE ∧
    ccnl_repo256 toyCodec toyFS (main_tables Mode.MODE_FILE toyRoot) 3 6 0
      toyInterestByDigest 0 4 = some ⟨0, 4, 0,
        { main_tables Mode.MODE_FILE toyRoot with
          outq := [(3, toyContent)]
          fslog := [FsOp.sys_stat (digest2fname toyRoot toyDigest),
            FsOp.sys_open (digest2fname toyRoot toyDigest),
            FsOp.sys_read (digest2fname toyRoot toyDigest)] }⟩ ∧
    (([(3, toyContent)] : List (Nat × Bytes)) = [] ∨
      ∃ pkt req d B p,
        (decode_interest toyCodec 6 toyInterestByDigest (0 + 0) (4 - 0)).1
          = some (pkt, req) ∧
        lookup_digest (main_tables Mode.MODE_FILE toyRoot) 6 pkt req
          = some (Lookup.digest (some d)) ∧
        toyFS (digest2fname toyRoot d) = some ⟨true, B⟩ ∧
        ([(3, toyContent)] : List (Nat × Bytes)) = [] ++ [(3, B)] ∧
        reparse toyCodec 6 B B.length = some p ∧
        p.md.take SHA256_DIGEST_LENGTH = d.take SHA256_DIGEST_LENGTH) :=
  ⟨rfl, by rfl,
    file_mode_reply_digest_verified toyCodec toyFS (main_tables Mode.MODE_FILE toyRoot)
      3 6 0 toyInterestByDigest 0 4 _ rfl (by rfl)⟩

/-! ## What the resolver and the scanner change -/

theorem NOset_add_some (st s : Repo) (suite : Int) (digest : Bytes)
    (h : NOset_add st suite digest = some s) :
    ∃ no, st.NOset = some no ∧
      s = { st with NOset := some (kh_put_256 no (digest2key suite digest)) } := by
  unfold NOset_add at h
  cases hno : st.NOset with
  | none => simp [hno] at h
  | some no => simp [hno] at h; exact ⟨no, rfl, h.symm⟩

theorem ERset_add_some (st s : Repo) (suite : Int) (digest : Bytes)
    (h : ERset_add st suite digest = some s) :
    ∃ er, st.ERset = some er ∧
      s = { st with ERset := some (kh_put_256 er (digest2key suite digest)) } := by
  unfold ERset_add at h
  cases her : st.ERset with
  | none => simp [her] at h
  | some er => simp [her] at h; exact ⟨er, rfl, h.symm⟩

/-- Effect of the serving block on the tables: mode, root, OKset and NMmap stay; either
the negative caches stay too, or `stat` failed and the key was put into NOset, or `stat`
succeeded and the key was put into ERset. -/
theorem serve_digest_effect (c : Codec) (fs : FS) (st : Repo) (face : Nat)
    (suite : Int) (d : Bytes) (res : Int × Repo)
    (h : serve_digest c fs st face suite d = some res) :
    res.2.repo_mode = st.repo_mode ∧ res.2.theDirPath = st.theDirPath ∧
    res.2.OKset = st.OKset ∧ res.2.NMmap = st.NMmap ∧
    ((res.2.ERset = st.ERset ∧ res.2.NOset = st.NOset) ∨
     (fs (digest2fname st.theDirPath d) = none ∧ res.2.ERset = st.ERset ∧
        ∃ no, st.NOset = some no ∧
          res.2.NOset = some (kh_put_256 no (digest2key suite d))) ∨
     ((fs (digest2fname st.theDirPath d)).isSome = true ∧ res.2.NOset = st.NOset ∧
        ∃ er, st.ERset = some er ∧
          res.2.ERset = some (kh_put_256 er (digest2key suite d)))) := by
  simp only [serve_digest] at h
  cases hf : fs (digest2fname st.theDirPath d) with
  | none =>
    rw [hf] at h
    simp only [Option.map_eq_some'] at h
    obtain ⟨s, hs, rfl⟩ := h
    obtain ⟨no, hno, rfl⟩ := NOset_add_some _ _ _ _ hs
    exact ⟨rfl, rfl, rfl, rfl, Or.inr (Or.inl ⟨rfl, rfl, no, hno, rfl⟩)⟩
  | some file =>
    rw [hf] at h
    simp only at h
    have hbad : ∀ (s0 s : Repo), ERset_add s0 suite d = some s →
        s0.repo_mode = st.repo_mode →
        s0.theDirPath = st.theDirPath → s0.OKset = st.OKset → s0.NMmap = st.NMmap →
        s0.ERset = st.ERset → s0.NOset = st.NOset →
        s.repo_mode = st.repo_mode ∧ s.theDirPath = st.theDirPath ∧
        s.OKset = st.OKset ∧ s.NMmap = st.NMmap ∧
        ((s.ERset = st.ERset ∧ s.NOset = st.NOset) ∨
         (some file = none ∧ s.ERset = st.ERset ∧
            ∃ no, st.NOset = some no ∧
              s.NOset = some (kh_put_256 no (digest2key suite d))) ∨
         ((some file).isSome = true ∧ s.NOset = st.NOset ∧
            ∃ er, st.ERset = some er ∧
              s.ERset = some (kh_put_256 er (digest2key suite d)))) := by
      intro s0 s hs h1 h2 h3 h4 h5 h6
      obtain ⟨er, her, rfl⟩ := ERset_add_some _ _ _ _ hs
      exact ⟨h1, h2, h3, h4, Or.inr (Or.inr ⟨rfl, h6, er, h5 ▸ her, rfl⟩)⟩
    by_cases hr : file.readable = false
    · rw [if_pos hr] at h
      simp only [Option.map_eq_some'] at h
      obtain ⟨s, hs, rfl⟩ := h
      exact hbad _ _ hs rfl rfl rfl rfl rfl rfl
    · rw [if_neg hr] at h
      have hm : st.repo_mode = Mode.MODE_INDEX ∨ st.repo_mode = Mode.MODE_FILE := by
        cases st.repo_mode
        · exact Or.inr rfl
        · exact Or.inl rfl
      rcases hm with hm | hm
      · rw [hm] at h
        simp only [Option.some.injEq] at h
        subst h
        exact ⟨hm.symm, rfl, rfl, rfl, Or.inl ⟨rfl, rfl⟩⟩
      · rw [hm] at h
        simp only at h
        cases hp : reparse c suite file.data file.data.length with
        | none =>
          rw [hp] at h
          simp only [Option.map_eq_some'] at h
          obtain ⟨s, hs, rfl⟩ := h
          exact hbad _ _ hs hm.symm rfl rfl rfl rfl rfl
        | some p =>
          rw [hp] at h
          simp only at h
          by_cases hmd : memcmp_eq p.md d SHA256_DIGEST_LENGTH = true
          · rw [if_pos hmd] at h
            simp only [Option.some.injEq] at h
            subst h
            exact ⟨hm.symm, rfl, rfl, rfl, Or.inl ⟨rfl, rfl⟩⟩
          · rw [if_neg hmd] at h
            simp only [Option.map_eq_some'] at h
            obtain ⟨s, hs, rfl⟩ := h
            exact hbad _ _ hs hm.symm rfl rfl rfl rfl rfl

/-- Effect of the resolver on the tables: mode, root, OKset and NMmap stay; either the
negative caches stay too, or for some digest `d` the call `stat` failed at its canonical
path and its key was put into NOset, or `stat` succeeded there and its key was put into
ERset. -/
theorem ccnl_repo256_effect (c : Codec) (fs : FS) (st : Repo) (face : Nat)
    (suite skip : Int) (buf : Bytes) (data datalen : Int) (r : Result)
    (hrun : ccnl_repo256 c fs st face suite skip buf data datalen = some r) :
    r.repo.repo_mode = st.repo_mode ∧ r.repo.theDirPath = st.theDirPath ∧
    r.repo.OKset = st.OKset ∧ r.repo.NMmap = st.NMmap ∧
    ((r.repo.ERset = st.ERset ∧ r.repo.NOset = st.NOset) ∨
     ∃ d, (fs (digest2fname st.theDirPath d) = none ∧ r.repo.ERset = st.ERset ∧
        ∃ no, st.NOset = some no ∧
          r.repo.NOset = some (kh_put_256 no (digest2key suite d))) ∨
     ((fs (digest2fname st.theDirPath d)).isSome = true ∧ r.repo.NOset = st.NOset ∧
        ∃ er, st.ERset = some er ∧
          r.repo.ERset = some (kh_put_256 er (digest2key suite d)))) := by
  cases hd : (decode_interest c suite buf (data + skip) (datalen - skip)).1 with
  | none =>
    unfold ccnl_repo256 at hrun
    rcases hd2 : decode_interest c suite buf (data + skip) (datalen - skip)
      with ⟨o, d1, l1⟩
    rw [hd2] at hd hrun
    simp only at hd
    subst hd
    simp only [Option.some.injEq] at hrun
    subst hrun
    exact ⟨rfl, rfl, rfl, rfl, Or.inl ⟨rfl, rfl⟩⟩
  | some pr =>
    obtain ⟨pkt, req⟩ := pr
    rw [ccnl_repo256_decoded c fs st face suite skip buf data datalen pkt req hd] at hrun
    cases hl : lookup_digest st suite pkt req with
    | none => rw [hl] at hrun; simp at hrun
    | some l =>
      rw [hl] at hrun
      cases l with
      | done =>
        simp only [Option.some.injEq] at hrun
        subst hrun
        exact ⟨rfl, rfl, rfl, rfl, Or.inl ⟨rfl, rfl⟩⟩
      | digest od =>
        cases od with
        | none =>
          simp only [Option.some.injEq] at hrun
          subst hrun
          exact ⟨rfl, rfl, rfl, rfl, Or.inl ⟨rfl, rfl⟩⟩
        | some d =>
          simp only [Option.map_eq_some'] at hrun
          obtain ⟨res, hres, rfl⟩ := hrun
          obtain ⟨h1, h2, h3, h4, h5⟩ := serve_digest_effect c fs st face suite d res hres
          refine ⟨h1, h2, h3, h4, ?_⟩
          rcases h5 with h5 | h5 | h5
          · exact Or.inl h5
          · exact Or.inr ⟨d, Or.inl h5⟩
          · exact Or.inr ⟨d, Or.inr h5⟩

/-- Effect of a scanner step: it returns; mode, root, negative caches, queue and trace
stay; either nothing changes, or the key of the parsed file is put into OKset and NMmap
either stays or gains the name of the packet, which it did not hold, with the stored
OKset key as value. -/
theorem add_content_effect (c : Codec) (fs : FS) (st st2 : Repo) (dirpath path : Path)
    (h : add_content c fs st dirpath path = some st2) :
    st2.repo_mode = st.repo_mode ∧ st2.theDirPath = st.theDirPath ∧
    st2.ERset = st.ERset ∧ st2.NOset = st.NOset ∧
    st2.outq = st.outq ∧ st2.fslog = st.fslog ∧
    (st2 = st ∨
     ∃ pkt suite ok, contentFile2packet c fs path = some (pkt, suite) ∧
      (st.repo_mode = Mode.MODE_INDEX → digest2fname dirpath pkt.md = path) ∧
      st.OKset = some ok ∧
      st2.OKset = some (kh_put_256 ok (digest2key suite pkt.md)) ∧
      (st2.NMmap = st.NMmap ∨
       ∃ pfx nm, pkt.pfx = some pfx ∧ st.NMmap = some nm ∧
        kh_get_PFX nm (prefix2key pfx) = none ∧
        st2.NMmap = some (nm ++
          [(prefix2key pfx, kh_put_256_key ok (digest2key suite pkt.md))]))) := by
  unfold add_content at h
  cases hc : contentFile2packet c fs path with
  | none =>
    rw [hc] at h
    simp only [Option.some.injEq] at h
    subst h
    exact ⟨rfl, rfl, rfl, rfl, rfl, rfl, Or.inl rfl⟩
  | some ps =>
    obtain ⟨pkt, suite⟩ := ps
    rw [hc] at h
    simp only at h
    by_cases hi : st.repo_mode = Mode.MODE_INDEX ∧ digest2fname dirpath pkt.md ≠ path
    · rw [if_pos hi] at h
      simp only [Option.some.injEq] at h
      subst h
      exact ⟨rfl, rfl, rfl, rfl, rfl, rfl, Or.inl rfl⟩
    · rw [if_neg hi] at h
      have hpath : st.repo_mode = Mode.MODE_INDEX → digest2fname dirpath pkt.md = path := by
        intro hm
        by_contra hne
        exact hi ⟨hm, hne⟩
      cases hok : st.OKset with
      | none => rw [hok] at h; simp at h
      | some ok =>
        rw [hok] at h
        simp only at h
        cases hp : pkt.pfx with
        | none =>
          rw [hp] at h
          simp only [Option.some.injEq] at h
          subst h
          exact ⟨rfl, rfl, rfl, rfl, rfl, rfl,
            Or.inr ⟨pkt, suite, ok, rfl, hpath, rfl, rfl, Or.inl rfl⟩⟩
        | some pfx =>
          rw [hp] at h
          simp only at h
          cases hnm : st.NMmap with
          | none => rw [hnm] at h; simp at h
          | some nm =>
            rw [hnm] at h
            simp only at h
            cases hg : kh_get_PFX nm (prefix2key pfx) with
            | some e =>
              rw [hg] at h
              simp only [Option.some.injEq] at h
              subst h
              exact ⟨rfl, rfl, rfl, rfl, rfl, rfl,
                Or.inr ⟨pkt, suite, ok, rfl, hpath, rfl, rfl, Or.inl rfl⟩⟩
            | none =>
              rw [hg] at h
              simp only [Option.some.injEq] at h
              subst h
              exact ⟨rfl, rfl, rfl, rfl, rfl, rfl,
                Or.inr ⟨pkt, suite, ok, rfl, hpath, rfl, rfl,
                  Or.inr ⟨pfx, nm, hp, rfl, hg, rfl⟩⟩⟩

/-! ## Invariants of the reachable states -/

theorem kh_get_256_of_mem (h : kh256) (k : Bytes) (hk : k ∈ h) :
    (kh_get_256 h k).isSome = true := by
  unfold kh_get_256
  rw [List.find?_isSome]
  exact ⟨k, hk, sha256equal_self k⟩

theorem kh_get_256_some (h : kh256) (k v : Bytes) (hv : kh_get_256 h k = some v) :
    v ∈ h ∧ v.take (SHA256_DIGEST_LENGTH + 1) = k.take (SHA256_DIGEST_LENGTH + 1) := by
  unfold kh_get_256 at hv
  refine ⟨List.mem_of_find?_eq_some hv, ?_⟩
  have := List.find?_some hv
  simpa [sha256equal, memcmp_eq] using this

/-- C3: in every state reachable from the tables of `main` by scanner steps and resolver
calls (whatever file system each step sees), OKset and NMmap are allocated and the value
stored for every name key of NMmap is a stored key of OKset, found there by `kh_get`. -/
theorem NMmap_values_in_OKset (c : Codec) (F : FS → Prop) (mode : Mode) (dir : Path)
    (st : Repo) (h : Reachable c F mode dir st) :
    ∃ ok nm, st.OKset = some ok ∧ st.NMmap = some nm ∧
      ∀ n k, (n, k) ∈ nm → k ∈ ok ∧ okContains st k := by
  have key : ∃ ok nm, st.OKset = some ok ∧ st.NMmap = some nm ∧
      ∀ n k, (n, k) ∈ nm → k ∈ ok := by
    induction h with
    | start => exact ⟨[], [], rfl, rfl, fun n k hk => by simp at hk⟩
    | scan fs path _ _ hadd ih =>
      obtain ⟨ok, nm, hok, hnm, hin⟩ := ih
      obtain ⟨-, -, -, -, -, -, hcase⟩ := add_content_effect c fs _ _ dir path hadd
      rcases hcase with rfl | ⟨pkt, suite, ok2, -, -, hok2, hput, hnm2⟩
      · exact ⟨ok, nm, hok, hnm, hin⟩
      · rw [hok] at hok2
        cases hok2
        rcases hnm2 with hsame | ⟨pfx, nm2, -, hnm3, -, happ⟩
        · exact ⟨_, nm, hput, hsame.trans hnm, fun n k hk =>
            kh_put_256_subset ok _ k (hin n k hk)⟩
        · rw [hnm] at hnm3
          cases hnm3
          refine ⟨_, _, hput, happ, fun n k hk => ?_⟩
          rcases List.mem_append.mp hk with h1 | h1
          · exact kh_put_256_subset ok _ k (hin n k h1)
          · simp only [List.mem_singleton, Prod.mk.injEq] at h1
            rw [h1.2]
            exact kh_put_256_key_mem ok _
    | resolve fs face suite skip buf data datalen _ _ hrun ih =>
      obtain ⟨ok, nm, hok, hnm, hin⟩ := ih
      obtain ⟨-, -, h3, h4, -⟩ :=
        ccnl_repo256_effect c fs _ face suite skip buf data datalen _ hrun
      exact ⟨ok, nm, h3.trans hok, h4.trans hnm, hin⟩
  obtain ⟨ok, nm, hok, hnm, hin⟩ := key
  exact ⟨ok, nm, hok, hnm, fun n k hk =>
    ⟨hin n k hk, ok, hok, kh_get_256_of_mem ok k (hin n k hk)⟩⟩

/-- State after the index-mode scan of `toyContent` at its canonical path. -/
def toyScanned : Repo :=
  { main_tables Mode.MODE_INDEX toyRoot with
    OKset := some [digest2key 6 toyDigest]
    NMmap := some [(prefix2key ⟨6, [9]⟩, digest2key 6 toyDigest)] }

theorem toyScanned_reachable :
    Reachable toyCodec (fun _ => True) Mode.MODE_INDEX toyRoot toyScanned :=
  Reachable.scan toyFS (digest2fname toyRoot toyDigest) trivial Reachable.start (by rfl)

theorem NMmap_values_in_OKset_witness :
    Reachable toyCodec (fun _ => True) Mode.MODE_INDEX toyRoot toyScanned ∧
    ∃ ok nm, toyScanned.OKset = some ok ∧ toyScanned.NMmap = some nm ∧
      ∀ n k, (n, k) ∈ nm → k ∈ ok ∧ okContains toyScanned k :=
  ⟨toyScanned_reachable,
    NMmap_values_in_OKset toyCodec (fun _ => True) Mode.MODE_INDEX toyRoot toyScanned
      toyScanned_reachable⟩

/-! ## Disjointness of the tables -/

/-- The disjointness property: no key is found in more than one of OKset, ERset and
NOset. -/
def TablesDisjoint (st : Repo) : Prop :=
  ∀ k, ¬ (okContains st k ∧ erContains st k) ∧ ¬ (okContains st k ∧ noContains st k) ∧
    ¬ (erContains st k ∧ noContains st k)

theorem digest2fname_take (dir : Path) (d : Bytes) :
    digest2fname dir (d.take SHA256_DIGEST_LENGTH) = digest2fname dir d := by
  have h0 : (d.take SHA256_DIGEST_LENGTH).getD 0 0 = d.getD 0 0 := by
    cases d with
    | nil => rfl
    | cons a t => rfl
  simp only [digest2fname, digest2str, List.take_take, min_self, h0]

theorem digest2fname_key (dir : Path) (suite : Int) (d : Bytes) :
    digest2fname dir ((digest2key suite d).drop 1) = digest2fname dir d := by
  simp only [digest2key, List.drop_succ_cons, List.drop_zero]
  exact digest2fname_take dir d

theorem digest2fname_congr (dir : Path) (k1 k2 : Bytes)
    (h : k1.take (SHA256_DIGEST_LENGTH + 1) = k2.take (SHA256_DIGEST_LENGTH + 1)) :
    digest2fname dir (k1.drop 1) = digest2fname dir (k2.drop 1) := by
  have hd : ∀ k : Bytes, (k.drop 1).take SHA256_DIGEST_LENGTH
      = (k.take (SHA256_DIGEST_LENGTH + 1)).drop 1 := by
    intro k
    cases k with
    | nil => rfl
    | cons a t => rfl
  rw [← digest2fname_take dir (k1.drop 1), ← digest2fname_take dir (k2.drop 1), hd, hd, h]

/-- State of the file-mode run below: the key of `toyContent` is in OKset and NOset. -/
def toyOverlap : Repo :=
  { repo_mode := Mode.MODE_FILE
    theDirPath := toyRoot
    OKset := some [digest2key 6 toyDigest]
    ERset := some []
    NOset := some [digest2key 6 toyDigest]
    NMmap := some [(prefix2key ⟨6, [9]⟩, digest2key 6 toyDigest)]
    outq := []
    fslog := [FsOp.sys_stat (digest2fname toyRoot toyDigest)] }

/-- A file system with `toyContent` below `zz` and nothing at its canonical path. -/
def toyZzFS : FS := fun p =>
  if p = ['r', '/', 'z', 'z', '/', 'x'] then some ⟨true, toyContent⟩ else none

/-- File mode over the unchanging file system `toyZzFS`: the scan of `r/zz/x` followed by
an Interest for the digest of that file leads to `toyOverlap`. -/
theorem toyOverlap_reachable :
    Reachable toyCodec (fun f => f = toyZzFS) Mode.MODE_FILE toyRoot toyOverlap := by
  have h1 : Reachable toyCodec (fun f => f = toyZzFS) Mode.MODE_FILE toyRoot
      { main_tables Mode.MODE_FILE toyRoot with
        OKset := some [digest2key 6 toyDigest]
        NMmap := some [(prefix2key ⟨6, [9]⟩, digest2key 6 toyDigest)] } :=
    Reachable.scan toyZzFS ['r', '/', 'z', 'z', '/', 'x'] rfl Reachable.start (by rfl)
  exact @Reachable.resolve toyCodec (fun f => f = toyZzFS) Mode.MODE_FILE toyRoot _
    ⟨-1, 4, 0, toyOverlap⟩ toyZzFS 3 6 0 toyInterestByDigest 0 4 rfl h1 (by rfl)

/-- C2, as stated, fails: in file mode, after the scan of a file below `zz` that is
absent from its canonical path and one Interest for its digest, the key of that file is
found both in OKset and in NOset of a reachable state. -/
theorem tables_not_disjoint :
    Reachable toyCodec (fun f => f = toyZzFS) Mode.MODE_FILE toyRoot toyOverlap ∧
    ¬ TablesDisjoint toyOverlap := by
  refine ⟨toyOverlap_reachable, fun h => ?_⟩
  refine (h (digest2key 6 toyDigest)).2.1 ⟨⟨_, rfl, by decide⟩, ⟨_, rfl, by decide⟩⟩

/-- C2, amended: in every state reachable from the tables of `main` by scanner steps and
resolver calls over one unchanging file system, in either mode, no key is found both in
ERset and in NOset. -/
theorem negative_caches_disjoint (c : Codec) (fs : FS) (mode : Mode) (dir : Path)
    (st : Repo) (h : Reachable c (fun f => f = fs) mode dir st) :
    ∀ k, ¬ (erContains st k ∧ noContains st k) := by
  have inv : st.theDirPath = dir ∧
      (∀ er, st.ERset = some er → ∀ k ∈ er,
        (fs (digest2fname dir (k.drop 1))).isSome = true) ∧
      (∀ no, st.NOset = some no → ∀ k ∈ no, fs (digest2fname dir (k.drop 1)) = none) := by
    induction h with
    | start =>
      refine ⟨rfl, ?_, ?_⟩
      · intro er her k hk
        cases mode <;> simp [main_tables] at her
        subst her
        simp at hk
      · intro no hno k hk
        cases mode <;> simp [main_tables] at hno
        subst hno
        simp at hk
    | scan fs2 path _ _ hadd ih =>
      obtain ⟨-, h2, h3, h4, -, -, -⟩ := add_content_effect c fs2 _ _ dir path hadd
      rw [h2, h3, h4]
      exact ih
    | resolve fs2 face suite skip buf data datalen hfs _ hrun ih =>
      obtain ⟨hdir, her, hno⟩ := ih
      obtain ⟨-, h2, -, -, h5⟩ :=
        ccnl_repo256_effect c fs2 _ face suite skip buf data datalen _ hrun
      simp only at hfs
      subst hfs
      refine ⟨h2.trans hdir, ?_, ?_⟩
      · intro er2 her2 k hk
        rcases h5 with ⟨h6, -⟩ | ⟨d, ⟨-, h6, -⟩ | ⟨hsome, -, er, he, h6⟩⟩
        · exact her er2 (h6 ▸ her2) k hk
        · exact her er2 (h6 ▸ her2) k hk
        · rw [h6] at her2
          cases her2
          rcases kh_put_256_mem er _ k hk with h7 | ⟨h7, -⟩
          · exact her er he k h7
          · rw [h7, digest2fname_key, ← hdir]
            exact hsome
      · intro no2 hno2 k hk
        rcases h5 with ⟨-, h6⟩ | ⟨d, ⟨hnone, -, no, hn, h6⟩ | ⟨-, h6, -⟩⟩
        · exact hno no2 (h6 ▸ hno2) k hk
        · rw [h6] at hno2
          cases hno2
          rcases kh_put_256_mem no _ k hk with h7 | ⟨h7, -⟩
          · exact hno no hn k h7
          · rw [h7, digest2fname_key, ← hdir]
            exact hnone
        · exact hno no2 (h6 ▸ hno2) k hk
  obtain ⟨-, her, hno⟩ := inv
  rintro k ⟨⟨er, he, hek⟩, ⟨no, hn, hnk⟩⟩
  obtain ⟨v1, hv1⟩ := Option.isSome_iff_exists.mp hek
  obtain ⟨v2, hv2⟩ := Option.isSome_iff_exists.mp hnk
  obtain ⟨hm1, ht1⟩ := kh_get_256_some er k v1 hv1
  obtain ⟨hm2, ht2⟩ := kh_get_256_some no k v2 hv2
  have h1 := her er he v1 hm1
  have h2 := hno no hn v2 hm2
  rw [digest2fname_congr dir v1 v2 (ht1.trans ht2.symm), h2] at h1
  simp at h1

theorem negative_caches_disjoint_witness :
    Reachable toyCodec (fun f => f = toyZzFS) Mode.MODE_FILE toyRoot toyOverlap ∧
    ∀ k, ¬ (erContains toyOverlap k ∧ noContains toyOverlap k) :=
  ⟨toyOverlap_reachable,
    negative_caches_disjoint toyCodec toyZzFS Mode.MODE_FILE toyRoot toyOverlap
      toyOverlap_reachable⟩

/-! ## Negative caches outside the digest branch -/

/-- C6, evaluated where the code departs from it: in index mode, in the state after the
scan of `toyContent`, an Interest for its digest while the file is gone makes the serving
block run `kh_put` on NOset.  With the tables of `main` (NOset is NULL in index mode)
the call has no defined result; were NOset allocated, the key would be inserted. -/
theorem index_mode_missing_file_puts_into_NOset :
    toyScanned.repo_mode = Mode.MODE_INDEX ∧
    okContains toyScanned (digest2key 6 toyDigest) ∧
    ccnl_repo256 toyCodec (fun _ => none) toyScanned 3 6 0 toyInterestByDigest 0 4
      = none ∧
    (ccnl_repo256 toyCodec (fun _ => none)
        { toyScanned with ERset := some [], NOset := some [] }
        3 6 0 toyInterestByDigest 0 4).map (fun r => (r.rc, r.repo.NOset))
      = some (-1, some [digest2key 6 toyDigest]) := by
  refine ⟨rfl, ⟨_, rfl, by decide⟩, by rfl, by rfl⟩

/-- C8, evaluated where the code departs from it: in file mode the branch for requests by
name does not consult ERset or NOset.  In the reachable state `toyOverlap` the name `[9]`
resolves to a key that is in NOset, and an Interest for that name still reaches `stat`;
with the key in ERset and a sound file at the canonical path the file is even opened,
read and enqueued as the reply. -/
theorem file_mode_name_request_skips_negative_caches :
    toyOverlap.repo_mode = Mode.MODE_FILE ∧
    (decode_interest toyCodec 6 toyInterestByName (0 + 0) (4 - 0)).1
      = some (toyInterestByNamePkt, none) ∧
    lookup_digest toyOverlap 6 toyInterestByNamePkt none
      = some (Lookup.digest (some toyDigest)) ∧
    noContains toyOverlap (digest2key 6 toyDigest) ∧
    (ccnl_repo256 toyCodec toyZzFS toyOverlap 3 6 0 toyInterestByName 0 4).map
        (fun r => (r.rc, r.repo.outq, r.repo.fslog))
      = some (-1, [], toyOverlap.fslog ++ [FsOp.sys_stat (digest2fname toyRoot toyDigest)]) ∧
    erContains { toyOverlap with ERset := some [digest2key 6 toyDigest], NOset := some [] }
      (digest2key 6 toyDigest) ∧
    (ccnl_repo256 toyCodec toyFS
        { toyOverlap with ERset := some [digest2key 6 toyDigest], NOset := some [] }
        3 6 0 toyInterestByName 0 4).map (fun r => (r.rc, r.repo.outq))
      = some (0, [(3, toyContent)]) := by
  refine ⟨rfl, by rfl, by rfl, ⟨_, rfl, by decide⟩, by rfl, ⟨_, rfl, by decide⟩, by rfl⟩

/-! ## The scanner: first writer wins, canonical paths -/

theorem khPFXequal_self (n : khPFX_s) : khPFXequal n n = true := by
  simp [khPFXequal, memcmp_eq]

theorem kh_get_PFX_append (nm ext : khPFX) (n : khPFX_s) (e : khPFX_s × Bytes)
    (h : kh_get_PFX nm n = some e) : kh_get_PFX (nm ++ ext) n = some e := by
  unfold kh_get_PFX at h ⊢
  rw [List.find?_append, h]
  rfl

theorem kh_get_PFX_append_new (nm : khPFX) (n : khPFX_s) (v : Bytes)
    (h : kh_get_PFX nm n = none) : kh_get_PFX (nm ++ [(n, v)]) n = some (n, v) := by
  unfold kh_get_PFX at h ⊢
  rw [List.find?_append, h]
  simp [khPFXequal_self]

theorem add_content_total (c : Codec) (fs : FS) (st : Repo) (dirpath path : Path)
    (hok : st.OKset.isSome = true) (hnm : st.NMmap.isSome = true) :
    ∃ st2, add_content c fs st dirpath path = some st2 ∧
      st2.OKset.isSome = true ∧ st2.NMmap.isSome = true := by
  obtain ⟨ok, hok2⟩ := Option.isSome_iff_exists.mp hok
  obtain ⟨nm, hnm2⟩ := Option.isSome_iff_exists.mp hnm
  unfold add_content
  cases contentFile2packet c fs path with
  | none => exact ⟨st, rfl, hok, hnm⟩
  | some ps =>
    obtain ⟨pkt, suite⟩ := ps
    simp only
    split
    · exact ⟨st, rfl, hok, hnm⟩
    · rw [hok2]
      simp only
      cases pkt.pfx with
      | none => exact ⟨_, rfl, rfl, hnm⟩
      | some pfx =>
        simp only [hnm2]
        cases kh_get_PFX nm (prefix2key pfx) with
        | none => exact ⟨_, rfl, rfl, rfl⟩
        | some e => exact ⟨_, rfl, rfl, by simp [hnm2]⟩

theorem scan_paths_total (c : Codec) (fs : FS) (dirpath : Path) (paths : List Path)
    (st : Repo) (hok : st.OKset.isSome = true) (hnm : st.NMmap.isSome = true) :
    ∃ st2, scan_paths c fs dirpath paths st = some st2 ∧
      st2.OKset.isSome = true ∧ st2.NMmap.isSome = true := by
  induction paths generalizing st with
  | nil => exact ⟨st, rfl, hok, hnm⟩
  | cons p rest ih =>
    obtain ⟨st1, h1, hok1, hnm1⟩ := add_content_total c fs st dirpath p hok hnm
    obtain ⟨st2, h2, hok2, hnm2⟩ := ih st1 hok1 hnm1
    exact ⟨st2, by simp [scan_paths, h1, h2], hok2, hnm2⟩

theorem khPFXequal_wraps (s b : Nat) (t : Bytes) (ht : t.length = 65536) :
    khPFXequal (prefix2key ⟨s, [b]⟩) (prefix2key ⟨s, b :: t⟩) = true := by
  simp [khPFXequal, prefix2key, memcmp_eq, ht]

theorem khPFXequal_len_zero (s1 s2 : Nat) (t1 t2 : Bytes) (h1 : t1.length = 65535)
    (h2 : t2.length = 65535) :
    khPFXequal (prefix2key ⟨s1, t1⟩) (prefix2key ⟨s2, t2⟩) = true := by
  simp [khPFXequal, prefix2key, memcmp_eq, h1, h2]

/-- C13, evaluated where the code departs from it: `len` is an `unsigned short`, so the
name key of the one-byte name `[9]` and the name key of a name of 65537 bytes starting
with 9 are equal under `khPFXequal` although the names differ, and any two names of 65535
bytes have equal keys whatever their bytes and suites. -/
theorem name_key_length_wraps :
    khPFXequal (prefix2key ⟨6, [9]⟩) (prefix2key ⟨6, 9 :: List.replicate 65536 0⟩) = true ∧
    ([9] : Bytes) ≠ 9 :: List.replicate 65536 0 ∧
    khPFXequal (prefix2key ⟨2, List.replicate 65535 1⟩)
      (prefix2key ⟨6, List.replicate 65535 0⟩) = true := by
  refine ⟨khPFXequal_wraps 6 9 _ (List.length_replicate _ _), ?_,
    khPFXequal_len_zero 2 6 _ _ (List.length_replicate _ _) (List.length_replicate _ _)⟩
  intro h
  have h2 := congrArg List.length h
  rw [List.length_cons, List.length_cons, List.length_replicate, List.length_nil] at h2
  omega

/-- Below 65535 name bytes and for suite tags that fit a byte, name keys are equal
exactly when suite and name are. -/
theorem khPFXequal_exact_short (p q : ccnl_prefix_s)
    (hp : p.name.length < 65535) (hq : q.name.length < 65535)
    (hps : p.suite < 256) (hqs : q.suite < 256) :
    khPFXequal (prefix2key p) (prefix2key q) = true ↔ p.suite = q.suite ∧ p.name = q.name := by
  have h1 : (1 + p.name.length) % 65536 = 1 + p.name.length := Nat.mod_eq_of_lt (by omega)
  have h2 : (1 + q.name.length) % 65536 = 1 + q.name.length := Nat.mod_eq_of_lt (by omega)
  simp only [khPFXequal, prefix2key, memcmp_eq, h1, h2, Bool.and_eq_true, beq_iff_eq,
    decide_eq_true_eq, Nat.mod_eq_of_lt hps, Nat.mod_eq_of_lt hqs]
  constructor
  · rintro ⟨hl, ht⟩
    have hl2 : p.name.length = q.name.length := by omega
    rw [Nat.add_comm 1, List.take_succ_cons, List.take_succ_cons, List.take_length,
      hl2, List.take_length] at ht
    simpa using ht
  · rintro ⟨hs, hn⟩
    rw [hs, hn]
    exact ⟨rfl, rfl⟩

/-- C12: in index mode, a scanned file that parses to a digest `md` with
`digest2fname root md` different from its path leaves the state, hence OKset and NMmap,
unchanged; and every key a scanner step adds to OKset is the key of the file scanned,
which lies at the canonical path of its own digest. -/
theorem index_scan_needs_canonical_path (c : Codec) (fs : FS) (st : Repo)
    (dirpath path : Path) (hmode : st.repo_mode = Mode.MODE_INDEX) :
    (∀ pkt suite, contentFile2packet c fs path = some (pkt, suite) →
        digest2fname dirpath pkt.md ≠ path →
        add_content c fs st dirpath path = some st) ∧
    (∀ st2 ok ok2, add_content c fs st dirpath path = some st2 →
        st.OKset = some ok → st2.OKset = some ok2 →
        ∀ k ∈ ok2, k ∉ ok →
          ∃ pkt suite, contentFile2packet c fs path = some (pkt, suite) ∧
            path = digest2fname dirpath pkt.md ∧ k = digest2key suite pkt.md) := by
  constructor
  · intro pkt suite hparse hne
    simp [add_content, hparse, hmode, hne]
  · intro st2 ok ok2 hadd hok hok2 k hk hnk
    obtain ⟨-, -, -, -, -, -, hcase⟩ := add_content_effect c fs st st2 dirpath path hadd
    rcases hcase with rfl | ⟨pkt, suite, ok1, hparse, hpath, hok1, hput, -⟩
    · rw [hok] at hok2
      cases hok2
      exact absurd hk hnk
    · rw [hok] at hok1
      cases hok1
      rw [hput] at hok2
      cases hok2
      rcases kh_put_256_mem ok _ k hk with h1 | ⟨h1, -⟩
      · exact absurd h1 hnk
      · exact ⟨pkt, suite, hparse, (hpath hmode).symm, h1⟩

theorem index_scan_needs_canonical_path_witness :
    (main_tables Mode.MODE_INDEX toyRoot).repo_mode = Mode.MODE_INDEX ∧
    contentFile2packet toyCodec toyZzFS ['r', '/', 'z', 'z', '/', 'x']
      = some (toyContentPkt, 6) ∧
    add_content toyCodec toyZzFS (main_tables Mode.MODE_INDEX toyRoot) toyRoot
      ['r', '/', 'z', 'z', '/', 'x'] = some (main_tables Mode.MODE_INDEX toyRoot) :=
  ⟨rfl, by rfl,
    (index_scan_needs_canonical_path toyCodec toyZzFS (main_tables Mode.MODE_INDEX toyRoot)
      toyRoot ['r', '/', 'z', 'z', '/', 'x'] rfl).1 toyContentPkt 6 (by rfl) (by decide)⟩

/-! ## Hexadecimal names and suite-qualified keys -/

theorem hex2_eq_spec (b : Nat) (hb : b < 256) : hex2 b = spec_hex_byte b := by
  interval_cases b <;> rfl

theorem hexdigit_mod (n : Nat) : hexdigit (n % 16) = hexdigit n := by
  simp [hexdigit]

theorem hexdigit_inj (i j : Nat) (hi : i < 16) (hj : j < 16)
    (h : hexdigit i = hexdigit j) : i = j := by
  interval_cases i <;> interval_cases j <;> first | rfl | (exact absurd h (by decide))

theorem hexdigit_mem (n : Nat) : hexdigit n ∈ "0123456789abcdef".toList := by
  rw [← hexdigit_mod]
  have h : n % 16 < 16 := Nat.mod_lt _ (by decide)
  interval_cases (n % 16) <;> decide

theorem hexdigit_ne_z (n : Nat) : hexdigit n ≠ 'z' := by
  rw [← hexdigit_mod]
  have h : n % 16 < 16 := Nat.mod_lt _ (by decide)
  interval_cases (n % 16) <;> decide

theorem hex2_inj (a b : Nat) (ha : a < 256) (hb : b < 256) (h : hex2 a = hex2 b) :
    a = b := by
  simp only [hex2, List.cons.injEq, and_true] at h
  have h1 := hexdigit_inj _ _ (Nat.mod_lt _ (by decide)) (Nat.mod_lt _ (by decide)) h.1
  have h2 := hexdigit_inj _ _ (Nat.mod_lt _ (by decide)) (Nat.mod_lt _ (by decide)) h.2
  omega

theorem hex2_length (b : Nat) : (hex2 b).length = 2 := rfl

theorem flatMap_hex2_length (l : Bytes) : (l.flatMap hex2).length = 2 * l.length := by
  induction l with
  | nil => rfl
  | cons a t ih => simp only [List.flatMap_cons, List.length_append, hex2_length, ih,
      List.length_cons]; omega

theorem flatMap_hex2_inj (l1 l2 : Bytes) (h1 : ∀ b ∈ l1, b < 256) (h2 : ∀ b ∈ l2, b < 256)
    (h : l1.flatMap hex2 = l2.flatMap hex2) : l1 = l2 := by
  induction l1 generalizing l2 with
  | nil =>
    cases l2 with
    | nil => rfl
    | cons b t => simp [hex2] at h
  | cons a t ih =>
    cases l2 with
    | nil => simp [hex2] at h
    | cons b t2 =>
      simp only [List.flatMap_cons] at h
      obtain ⟨h3, h4⟩ := List.append_inj h (by simp [hex2_length])
      have hab := hex2_inj a b (h1 a (List.mem_cons_self _ _)) (h2 b (List.mem_cons_self _ _)) h3
      have ht := ih t2 (fun x hx => h1 x (List.mem_cons_of_mem _ hx))
        (fun x hx => h2 x (List.mem_cons_of_mem _ hx)) h4
      rw [hab, ht]

theorem flatMap_hex2_spec (l : Bytes) (h : ∀ b ∈ l, b < 256) :
    l.flatMap hex2 = spec_hex l := by
  induction l with
  | nil => rfl
  | cons a t ih =>
    simp only [spec_hex, List.flatMap_cons]
    rw [hex2_eq_spec a (h a (List.mem_cons_self _ _))]
    congr 1
    exact ih (fun x hx => h x (List.mem_cons_of_mem _ hx))

/-- Shape of `digest2fname` on a digest with a first byte. -/
theorem digest2fname_cons (root : Path) (a : Nat) (t : Bytes)
    (hlen : (a :: t).length ≤ SHA256_DIGEST_LENGTH) :
    digest2fname root (a :: t) = root ++ ['/'] ++ hex2 a ++ ['/'] ++ t.flatMap hex2 := by
  have h : (a :: t).take SHA256_DIGEST_LENGTH = a :: t := List.take_of_length_le hlen
  simp only [digest2fname, digest2str, h, List.flatMap_cons, List.getD_cons_zero]
  rfl

/-- C14: for every root and every digest `d` of 32 bytes, `digest2fname root d` is the
root, a slash, the two-character lowercase hex encoding of `d[0]`, a slash, and the
62-character lowercase hex encoding of `d[1]` .. `d[31]`. -/
theorem digest2fname_layout (root : Path) (d : Bytes)
    (hlen : d.length = SHA256_DIGEST_LENGTH) (hbytes : ∀ b ∈ d, b < 256) :
    digest2fname root d
      = root ++ ['/'] ++ spec_hex (d.take 1) ++ ['/'] ++ spec_hex (d.drop 1) ∧
    (spec_hex (d.take 1)).length = 2 ∧ (spec_hex (d.drop 1)).length = 62 := by
  cases d with
  | nil => simp [SHA256_DIGEST_LENGTH] at hlen
  | cons a t =>
    have ha : a < 256 := hbytes a (List.mem_cons_self _ _)
    have ht : ∀ b ∈ t, b < 256 := fun x hx => hbytes x (List.mem_cons_of_mem _ hx)
    have htl : t.length = 31 := by
      simp only [List.length_cons, SHA256_DIGEST_LENGTH] at hlen
      omega
    rw [digest2fname_cons root a t (le_of_eq hlen)]
    have h1 : spec_hex ((a :: t).take 1) = hex2 a := by
      simp [spec_hex, hex2_eq_spec a ha]
    have h2 : spec_hex ((a :: t).drop 1) = t.flatMap hex2 := by
      simp [flatMap_hex2_spec t ht]
    rw [h1, h2, flatMap_hex2_length, htl]
    exact ⟨rfl, rfl, rfl⟩

theorem digest2fname_layout_witness :
    toyDigest.length = SHA256_DIGEST_LENGTH ∧
    digest2fname toyRoot toyDigest
      = toyRoot ++ ['/'] ++ spec_hex (toyDigest.take 1) ++ ['/']
        ++ spec_hex (toyDigest.drop 1) ∧
    (spec_hex (toyDigest.take 1)).length = 2 ∧ (spec_hex (toyDigest.drop 1)).length = 62 :=
  ⟨rfl, digest2fname_layout toyRoot toyDigest rfl (by decide)⟩

/-- C15: for a fixed root, `digest2fname` is injective on digests of 32 bytes. -/
theorem digest2fname_injective (root : Path) (d1 d2 : Bytes)
    (hlen1 : d1.length = SHA256_DIGEST_LENGTH) (hlen2 : d2.length = SHA256_DIGEST_LENGTH)
    (hb1 : ∀ b ∈ d1, b < 256) (hb2 : ∀ b ∈ d2, b < 256)
    (h : digest2fname root d1 = digest2fname root d2) : d1 = d2 := by
  cases d1 with
  | nil => simp [SHA256_DIGEST_LENGTH] at hlen1
  | cons a t =>
    cases d2 with
    | nil => simp [SHA256_DIGEST_LENGTH] at hlen2
    | cons b u =>
      rw [digest2fname_cons root a t (le_of_eq hlen1),
        digest2fname_cons root b u (le_of_eq hlen2)] at h
      simp only [List.append_assoc, List.append_cancel_left_eq] at h
      obtain ⟨h3, h4⟩ := List.append_inj h (by simp [hex2_length])
      have hab := hex2_inj a b (hb1 a (List.mem_cons_self _ _))
        (hb2 b (List.mem_cons_self _ _)) h3
      simp only [List.singleton_append, List.cons.injEq, true_and] at h4
      have htu := flatMap_hex2_inj t u (fun x hx => hb1 x (List.mem_cons_of_mem _ hx))
        (fun x hx => hb2 x (List.mem_cons_of_mem _ hx)) h4
      rw [hab, htu]

theorem digest2fname_injective_witness :
    digest2fname toyRoot toyDigest = digest2fname toyRoot (List.replicate 32 7) ∧
    toyDigest = List.replicate 32 7 :=
  ⟨rfl, digest2fname_injective toyRoot toyDigest (List.replicate 32 7) rfl rfl
    (by decide) (by decide) rfl⟩

theorem flatMap_hex2_get (l : Bytes) (i b : Nat) (h : l[i]? = some b) :
    (l.flatMap hex2)[2 * i]? = some (hexdigit (b / 16 % 16)) ∧
    (l.flatMap hex2)[2 * i + 1]? = some (hexdigit (b % 16)) := by
  induction l generalizing i with
  | nil => simp at h
  | cons a t ih =>
    cases i with
    | zero =>
      simp only [List.getElem?_cons_zero, Option.some.injEq] at h
      subst h
      simp [hex2]
    | succ j =>
      simp only [List.getElem?_cons_succ] at h
      obtain ⟨h1, h2⟩ := ih j h
      have e1 : 2 * (j + 1) = (2 * j) + 1 + 1 := by ring
      simp only [List.flatMap_cons, hex2, List.cons_append, List.nil_append]
      rw [e1]
      simp only [List.getElem?_cons_succ]
      exact ⟨h1, h2⟩

/-- C16: for every digest `d` of 32 bytes, `digest2str d` has exactly 64 characters, all
of them among 0-9 and a-f, and the characters 2i and 2i+1 are the digits of the high
and of the low nibble of `d[i]`, for every i below 32. -/
theorem digest2str_hex (d : Bytes) (hlen : d.length = SHA256_DIGEST_LENGTH)
    (hbytes : ∀ b ∈ d, b < 256) :
    (digest2str d).length = 64 ∧
    (∀ ch ∈ digest2str d, ch ∈ "0123456789abcdef".toList) ∧
    ∀ i b, i < 32 → d[i]? = some b →
      (digest2str d)[2 * i]? = some (hexdigit (b / 16)) ∧
      (digest2str d)[2 * i + 1]? = some (hexdigit (b % 16)) := by
  have htake : d.take SHA256_DIGEST_LENGTH = d := List.take_of_length_le (le_of_eq hlen)
  refine ⟨?_, ?_, ?_⟩
  · rw [digest2str, htake, flatMap_hex2_length, hlen]
    rfl
  · intro ch hch
    rw [digest2str, htake, List.mem_flatMap] at hch
    obtain ⟨b, -, hb⟩ := hch
    simp only [hex2, List.mem_cons, List.mem_singleton, List.not_mem_nil, or_false] at hb
    rcases hb with rfl | rfl
    · exact hexdigit_mem _
    · exact hexdigit_mem _
  · intro i b _ hib
    have hb : b < 256 := hbytes b (List.getElem?_mem hib)
    have h16 : b / 16 % 16 = b / 16 := Nat.mod_eq_of_lt (by omega)
    rw [digest2str, htake, ← h16]
    exact flatMap_hex2_get d i b hib

theorem digest2str_hex_witness :
    toyDigest.length = SHA256_DIGEST_LENGTH ∧
    (digest2str toyDigest).length = 64 ∧
    (∀ ch ∈ digest2str toyDigest, ch ∈ "0123456789abcdef".toList) ∧
    ∀ i b, i < 32 → toyDigest[i]? = some b →
      (digest2str toyDigest)[2 * i]? = some (hexdigit (b / 16)) ∧
      (digest2str toyDigest)[2 * i + 1]? = some (hexdigit (b % 16)) :=
  ⟨rfl, digest2str_hex toyDigest rfl (by decide)⟩

/-- C17: for suite tags `s1`, `s2` in 0..255 and digests `d1`, `d2` of 32 bytes,
`digest2key s1 d1` is the 33-byte sequence of `s1` followed by `d1`, and two keys are
equal under `sha256equal` exactly when the suites are equal and the digests are equal. -/
theorem digest2key_exact (s1 s2 : Int) (d1 d2 : Bytes)
    (hs1 : 0 ≤ s1 ∧ s1 < 256) (hs2 : 0 ≤ s2 ∧ s2 < 256)
    (hlen1 : d1.length = SHA256_DIGEST_LENGTH) (hlen2 : d2.length = SHA256_DIGEST_LENGTH) :
    digest2key s1 d1 = s1.toNat :: d1 ∧ (digest2key s1 d1).length = 33 ∧
    (sha256equal (digest2key s1 d1) (digest2key s2 d2) = true ↔ s1 = s2 ∧ d1 = d2) := by
  have ht1 : d1.take SHA256_DIGEST_LENGTH = d1 := List.take_of_length_le (le_of_eq hlen1)
  have ht2 : d2.take SHA256_DIGEST_LENGTH = d2 := List.take_of_length_le (le_of_eq hlen2)
  have hm1 : s1 % 256 = s1 := Int.emod_eq_of_lt hs1.1 hs1.2
  have hm2 : s2 % 256 = s2 := Int.emod_eq_of_lt hs2.1 hs2.2
  have hk1 : digest2key s1 d1 = s1.toNat :: d1 := by rw [digest2key, ht1, hm1]
  have hk2 : digest2key s2 d2 = s2.toNat :: d2 := by rw [digest2key, ht2, hm2]
  refine ⟨hk1, by rw [hk1, List.length_cons, hlen1]; rfl, ?_⟩
  rw [hk1, hk2]
  simp only [sha256equal, memcmp_eq, decide_eq_true_eq, List.take_succ_cons, ht1, ht2,
    List.cons.injEq]
  constructor
  · rintro ⟨h1, h2⟩
    refine ⟨?_, h2⟩
    have := congrArg Int.ofNat h1
    simp only [Int.ofNat_eq_coe, Int.toNat_of_nonneg hs1.1, Int.toNat_of_nonneg hs2.1] at this
    exact this
  · rintro ⟨h1, h2⟩
    rw [h1, h2]
    exact ⟨rfl, rfl⟩

theorem digest2key_exact_witness :
    digest2key 6 toyDigest = (6 : Int).toNat :: toyDigest ∧
    (digest2key 6 toyDigest).length = 33 ∧
    (sha256equal (digest2key 6 toyDigest) (digest2key 2 toyDigest) = true ↔
      (6 : Int) = 2 ∧ toyDigest = toyDigest) :=
  digest2key_exact 6 2 toyDigest toyDigest (by decide) (by decide) rfl rfl

/-! ## The dispatcher: datagrams with several Interests -/

/-- The resolver on an Interest whose digest is looked up with success, the file being
present, readable and (in file mode) sound: it returns 0 after enqueuing the file. -/
theorem ccnl_repo256_served (c : Codec) (fs : FS) (st : Repo) (face : Nat)
    (suite skip : Int) (buf : Bytes) (data datalen : Int) (pkt : ccnl_pkt_s)
    (req : Option Bytes) (d B : Bytes) (data1 len1 : Int)
    (hdec : decode_interest c suite buf (data + skip) (datalen - skip)
      = (some (pkt, req), data1, len1))
    (hlook : lookup_digest st suite pkt req = some (Lookup.digest (some d)))
    (hfile : fs (digest2fname st.theDirPath d) = some ⟨true, B⟩)
    (hver : st.repo_mode = Mode.MODE_FILE →
      ∃ p, reparse c suite B B.length = some p ∧
        memcmp_eq p.md d SHA256_DIGEST_LENGTH = true) :
    ccnl_repo256 c fs st face suite skip buf data datalen
      = some ⟨0, data1, len1, served st face (digest2fname st.theDirPath d) B⟩ := by
  rw [ccnl_repo256_decoded c fs st face suite skip buf data datalen pkt req
    (by rw [hdec]), hlook, hdec]
  simp only [serve_digest, hfile]
  cases hm : st.repo_mode with
  | MODE_INDEX => simp [served, hm]
  | MODE_FILE =>
    obtain ⟨p, hp, hmd⟩ := hver hm
    simp [served, hm, hp, hmd]

/-- C20: a datagram of two concatenated Interests with digest restrictions `d1` and `d2`,
both servable in the current state (the lookup succeeds, the file is present and
readable, and in file mode it parses to the digest asked for), sniffed as suite `s`: the
dispatcher returns with exactly two more buffers on the queue of the originating face,
the file of `d1` before the file of `d2`. -/
theorem two_interests_two_replies (c : Codec) (fr : Framing) (fs : FS) (st : Repo)
    (face : Nat) (buf : Bytes) (datalen skip0 s skip : Int) (fuel : Nat)
    (pkt1 pkt2 : ccnl_pkt_s) (d1 d2 B1 B2 : Bytes) (data1 len1 data2 len2 : Int)
    (hlen : 0 < datalen)
    (hsw : fr.ccnl_switch_dehead buf 0 datalen = none)
    (hsuite : c.ccnl_pkt2suite buf 0 datalen = (s, skip))
    (his : fr.ccnl_isSuite s = true) (hs : s ≠ -1)
    (hdec1 : decode_interest c s buf (0 + skip) (datalen - skip)
      = (some (pkt1, some d1), data1, len1))
    (hlen1 : 0 < len1)
    (hsw1 : fr.ccnl_switch_dehead buf data1 len1 = none)
    (hdec2 : decode_interest c s buf (data1 + skip) (len1 - skip)
      = (some (pkt2, some d2), data2, len2))
    (hlen2 : len2 ≤ 0)
    (hlook1 : lookup_digest st s pkt1 (some d1) = some (Lookup.digest (some d1)))
    (hfile1 : fs (digest2fname st.theDirPath d1) = some ⟨true, B1⟩)
    (hver1 : st.repo_mode = Mode.MODE_FILE →
      ∃ p, reparse c s B1 B1.length = some p ∧
        memcmp_eq p.md d1 SHA256_DIGEST_LENGTH = true)
    (hlook2 : lookup_digest st s pkt2 (some d2) = some (Lookup.digest (some d2)))
    (hfile2 : fs (digest2fname st.theDirPath d2) = some ⟨true, B2⟩)
    (hver2 : st.repo_mode = Mode.MODE_FILE →
      ∃ p, reparse c s B2 B2.length = some p ∧
        memcmp_eq p.md d2 SHA256_DIGEST_LENGTH = true) :
    ∃ st2, ccnl_repo_RX c fr fs st (some face) buf datalen skip0 (fuel + 3) = Run.done st2 ∧
      st2.outq = st.outq ++ [(face, B1), (face, B2)] := by
  have hr1 := ccnl_repo256_served c fs st face s skip buf 0 datalen pkt1 (some d1) d1 B1
    data1 len1 hdec1 hlook1 hfile1 hver1
  have hr2 := ccnl_repo256_served c fs (served st face (digest2fname st.theDirPath d1) B1)
    face s skip buf data1 len1 pkt2 (some d2) d2 B2 data2 len2 hdec2 hlook2 hfile2 hver2
  refine ⟨served (served st face (digest2fname st.theDirPath d1) B1) face
    (digest2fname st.theDirPath d2) B2, ?_, ?_⟩
  · have hnot : ¬ (len2 > 0) := not_lt.mpr hlen2
    simp only [ccnl_repo_RX, rx_loop, switch_loop, hlen, hsw, hsuite, his, hr1, hlen1, hsw1,
      hs, hr2, hnot, gt_iff_lt, if_true, if_false, ite_true, ite_false]
    simp
    rfl
  · simp [served, ccnl_face_enqueue]

theorem two_interests_two_replies_witness :
    decode_interest toyCodec 6 [6, 5, 1, 7, 6, 5, 1, 6] (0 + 0) (8 - 0)
      = (some (toyInterestByDigestPkt, some toyDigest), 4, 4) ∧
    decode_interest toyCodec 6 [6, 5, 1, 7, 6, 5, 1, 6] (4 + 0) (4 - 0)
      = (some (toyInterest2Pkt, some (List.replicate 32 6)), 8, 0) ∧
    ∃ st2, ccnl_repo_RX toyCodec toyFraming toyTwoFS (main_tables Mode.MODE_FILE toyRoot)
        (some 3) [6, 5, 1, 7, 6, 5, 1, 6] 8 0 (0 + 3) = Run.done st2 ∧
      st2.outq = (main_tables Mode.MODE_FILE toyRoot).outq
        ++ [(3, toyContent), (3, toyContent2)] :=
  ⟨by rfl, by rfl,
    two_interests_two_replies toyCodec toyFraming toyTwoFS
      (main_tables Mode.MODE_FILE toyRoot) 3 [6, 5, 1, 7, 6, 5, 1, 6] 8 0 6 0 0
      toyInterestByDigestPkt toyInterest2Pkt toyDigest (List.replicate 32 6)
      toyContent toyContent2 4 4 8 0
      (by decide) (by rfl) (by rfl) (by rfl) (by decide) (by rfl) (by decide) (by rfl)
      (by rfl) (by decide) (by rfl) (by rfl) (fun _ => ⟨toyContentPkt, by rfl, by rfl⟩)
      (by rfl) (by rfl) (fun _ => ⟨toyContent2Pkt, by rfl, by rfl⟩)⟩

/-- C19, evaluated where the code departs from it: file mode, a datagram of two
well-formed Interests, the first for a digest whose file is missing, the second for the
digest of `toyContent`, which is served when it comes alone.  The resolver returns -1
for the first (its key goes to NOset), the packet loop breaks, and the second Interest
is never handed to the resolver: nothing is enqueued. -/
theorem dropped_interest_ends_datagram :
    decode_interest toyCodec 6 [6, 5, 1, 8, 6, 5, 1, 7] (0 + 0) (8 - 0)
      = (some ({ toyInterestByDigestPkt with
          objHashRestr := some (List.replicate 32 8),
          dataHashRestr := some (List.replicate 32 8),
          md := List.replicate 32 14, buf := [6, 5, 1, 8] }, some (List.replicate 32 8)),
        4, 4) ∧
    decode_interest toyCodec 6 [6, 5, 1, 8, 6, 5, 1, 7] (4 + 0) (4 - 0)
      = (some (toyInterestByDigestPkt, some toyDigest), 8, 0) ∧
    (ccnl_repo_RX toyCodec toyFraming toyFS (main_tables Mode.MODE_FILE toyRoot) (some 3)
        [6, 5, 1, 7] 4 0 10).value.map (fun st => st.outq) = some [(3, toyContent)] ∧
    (ccnl_repo_RX toyCodec toyFraming toyFS (main_tables Mode.MODE_FILE toyRoot) (some 3)
        [6, 5, 1, 8, 6, 5, 1, 7] 8 0 10).value.map (fun st => (st.outq, st.NOset))
      = some ([], some [digest2key 6 (List.replicate 32 8)]) := by
  refine ⟨by rfl, by rfl, by rfl, by rfl⟩

/-! ## Import, scan and request by digest -/

theorem hexdigit_ne_dot (n : Nat) : hexdigit n ≠ '.' := by
  rw [← hexdigit_mod]
  have h : n % 16 < 16 := Nat.mod_lt _ (by decide)
  interval_cases (n % 16) <;> decide

theorem contentFile2packet_congr (c : Codec) (fs1 fs2 : FS) (p1 p2 : Path)
    (h : fs1 p1 = fs2 p2) : contentFile2packet c fs1 p1 = contentFile2packet c fs2 p2 := by
  unfold contentFile2packet
  rw [h]

theorem disk_view_none (disk : Disk) (p : Path) (h : disk p = none) :
    disk_view disk p = none := by
  simp [disk_view, h]

theorem disk_view_reg (disk : Disk) (p : Path) (f : File) (h : disk p = some (Node.reg f)) :
    disk_view disk p = some f := by
  simp [disk_view, h]

theorem digest2str_cons (a : Nat) (t : Bytes)
    (hlen : (a :: t).length ≤ SHA256_DIGEST_LENGTH) :
    digest2str (a :: t) = hex2 a ++ t.flatMap hex2 := by
  have h : (a :: t).take SHA256_DIGEST_LENGTH = a :: t := List.take_of_length_le hlen
  simp only [digest2str, h, List.flatMap_cons]

theorem child_ne (p : Path) (n : List Char) : child p n ≠ p := by
  intro h
  have := congrArg List.length h
  simp [child] at this

theorem child_child_ne (p : Path) (n m : List Char) : child (child p n) m ≠ p := by
  intro h
  have := congrArg List.length h
  simp [child] at this

theorem child_inj (p : Path) (n m : List Char) (h : child p n = child p m) : n = m := by
  simpa [child] using h

theorem child_child_eq (p : Path) (n m : List Char) :
    child (child p n) m = child p (n ++ '/' :: m) := by
  simp [child, List.append_assoc]

theorem disk_set_same (disk : Disk) (p : Path) (n : Node) : disk_set disk p n p = some n := by
  simp [disk_set]

theorem disk_set_other (disk : Disk) (p q : Path) (n : Node) (h : q ≠ p) :
    disk_set disk p n q = disk q := by
  simp [disk_set, h]

/-- Creation of a directory `nA` below `root` and of a regular file `nF` in it, neither
of them present before. -/
theorem store_fresh (disk0 : Disk) (root : Path) (nA nF : List Char) (data : Bytes)
    (names : List (List Char))
    (hroot : disk0 root = some (Node.dir names))
    (hA : disk0 (child root nA) = none)
    (hF : disk0 (child (child root nA) nF) = none) :
    ∃ d1 d2, sys_mkdir disk0 root nA = some d1 ∧
      sys_creat d1 (child root nA) nF data = d2 ∧
      d2 root = some (Node.dir (names ++ [nA])) ∧
      d2 (child root nA) = some (Node.dir [nF]) ∧
      d2 (child (child root nA) nF) = some (Node.reg ⟨true, data⟩) ∧
      ∀ q, q ≠ root → q ≠ child root nA → q ≠ child (child root nA) nF → d2 q = disk0 q := by
  have n1 := child_ne root nA
  have n2 := child_child_ne root nA nF
  have n3 := child_ne (child root nA) nF
  have hd1 : sys_mkdir disk0 root nA = some (disk_set (disk_set disk0 root
      (Node.dir (names ++ [nA]))) (child root nA) (Node.dir [])) := by
    simp [sys_mkdir, hA, hroot]
  refine ⟨_, _, hd1, rfl, ?_, ?_, ?_, ?_⟩
  · simp [sys_creat, disk_set_same, disk_set_other, n1, n2, n3, n1.symm, n2.symm, n3.symm,
      hF]
  · simp [sys_creat, disk_set_same, disk_set_other, n1, n2, n3, n1.symm, n2.symm, n3.symm,
      hF]
  · simp [sys_creat, disk_set_same, disk_set_other, n1, n2, n3, n1.symm, n2.symm, n3.symm,
      hF]
  · intro q h1 h2 h3
    simp [sys_creat, disk_set_same, disk_set_other, n1, n2, n3, n1.symm, n2.symm, n3.symm,
      hF, h1, h2, h3]

/-- Creation of a directory `nZ` below `root` and of a symbolic link `nL` in it, neither
of them present before. -/
theorem link_fresh (disk0 : Disk) (root : Path) (nZ nL tgt : List Char)
    (names : List (List Char))
    (hroot : disk0 root = some (Node.dir names))
    (hZ : disk0 (child root nZ) = none)
    (hL : disk0 (child (child root nZ) nL) = none) :
    ∃ d1 d2, sys_mkdir disk0 root nZ = some d1 ∧
      sys_symlink d1 (child root nZ) nL tgt = d2 ∧
      d2 root = some (Node.dir (names ++ [nZ])) ∧
      d2 (child root nZ) = some (Node.dir [nL]) ∧
      d2 (child (child root nZ) nL) = some (Node.lnk tgt) ∧
      ∀ q, q ≠ root → q ≠ child root nZ → q ≠ child (child root nZ) nL → d2 q = disk0 q := by
  have n1 := child_ne root nZ
  have n2 := child_child_ne root nZ nL
  have n3 := child_ne (child root nZ) nL
  have hd1 : sys_mkdir disk0 root nZ = some (disk_set (disk_set disk0 root
      (Node.dir (names ++ [nZ]))) (child root nZ) (Node.dir [])) := by
    simp [sys_mkdir, hZ, hroot]
  refine ⟨_, _, hd1, rfl, ?_, ?_, ?_, ?_⟩
  · simp [sys_symlink, disk_set_same, disk_set_other, n1, n2, n3, n1.symm, n2.symm,
      n3.symm, hL]
  · simp [sys_symlink, disk_set_same, disk_set_other, n1, n2, n3, n1.symm, n2.symm,
      n3.symm, hL]
  · simp [sys_symlink, disk_set_same, disk_set_other, n1, n2, n3, n1.symm, n2.symm,
      n3.symm, hL]
  · intro q h1 h2 h3
    simp [sys_symlink, disk_set_same, disk_set_other, n1, n2, n3, n1.symm, n2.symm,
      n3.symm, hL, h1, h2, h3]

/-- The importer body on a tree whose root directory is empty: the tree afterwards holds
the packet bytes at the canonical path of the digest, the fan-out directory lists that
file, and the root lists the fan-out directory, followed by `zz` with a link when the
packet has a name. -/
theorem import_file_fresh (c : Codec) (root walk : Path) (disk0 : Disk)
    (pkt : ccnl_pkt_s) (s : Int) (a : Nat) (t : Bytes)
    (hparse : contentFile2packet c (disk_view disk0) walk = some (pkt, s))
    (hmd : pkt.md = a :: t) (hlen : (a :: t).length ≤ SHA256_DIGEST_LENGTH)
    (hroot : disk0 root = some (Node.dir []))
    (hempty : ∀ rel, disk0 (root ++ '/' :: rel) = none) :
    ∃ disk1, import_file c root disk0 walk = some disk1 ∧
      disk1 (child (child root (hex2 a)) (t.flatMap hex2))
        = some (Node.reg ⟨true, pkt.buf⟩) ∧
      disk1 (child root (hex2 a)) = some (Node.dir [t.flatMap hex2]) ∧
      ((pkt.pfx = none ∧ disk1 root = some (Node.dir [hex2 a])) ∨
       (pkt.pfx ≠ none ∧ disk1 root = some (Node.dir [hex2 a, ['z', 'z']]) ∧
        disk1 (child root ['z', 'z']) = some (Node.dir [digest2str pkt.md]) ∧
        ∃ tgt, disk1 (child (child root ['z', 'z']) (digest2str pkt.md))
          = some (Node.lnk tgt))) := by
  have hx1 : ¬ ('z' = hexdigit (a / 16 % 16)) := fun h => hexdigit_ne_z _ h.symm
  have hfn : digest2fname root pkt.md = child (child root (hex2 a)) (t.flatMap hex2) := by
    rw [hmd, digest2fname_cons root a t hlen]
    rfl
  have hstr : digest2str pkt.md = hex2 a ++ t.flatMap hex2 := by
    rw [hmd]
    exact digest2str_cons a t hlen
  have htake : (digest2str pkt.md).take 2 = hex2 a := by
    rw [hstr]
    rfl
  have hdrop : (digest2str pkt.md).drop 2 = t.flatMap hex2 := by
    rw [hstr]
    rfl
  have hget : pkt.md.getD 0 0 = a := by
    rw [hmd]
    rfl
  have hch : ∀ n, disk0 (child root n) = none := by
    intro n
    have := hempty n
    simpa [child, List.append_assoc] using this
  have e1 : disk0 (child (child root (hex2 a)) (t.flatMap hex2)) = none := by
    rw [child_child_eq]
    exact hch _
  have e4 : disk0 (child (child root ['z', 'z']) (digest2str pkt.md)) = none := by
    rw [child_child_eq]
    exact hch _
  obtain ⟨d1, d2, hmk, hcr, r1, r2, r3, r4⟩ :=
    store_fresh disk0 root (hex2 a) (t.flatMap hex2) pkt.buf [] hroot (hch _) e1
  have zA : child root ['z', 'z'] ≠ child root (hex2 a) := by
    intro h
    have := child_inj _ _ _ h
    simp [hex2, hx1] at this
  have zF : child root ['z', 'z'] ≠ child (child root (hex2 a)) (t.flatMap hex2) := by
    rw [child_child_eq]
    intro h
    have := child_inj _ _ _ h
    simp [hex2] at this
  have lA : child (child root ['z', 'z']) (digest2str pkt.md) ≠ child root (hex2 a) := by
    rw [child_child_eq]
    intro h
    have := child_inj _ _ _ h
    simp [hex2] at this
  have lF : child (child root ['z', 'z']) (digest2str pkt.md)
      ≠ child (child root (hex2 a)) (t.flatMap hex2) := by
    rw [child_child_eq, child_child_eq]
    intro h
    have := child_inj _ _ _ h
    simp [hex2, hx1] at this
  unfold import_file
  rw [hparse]
  simp only [hfn, disk_view_none disk0 _ e1, Option.isSome_none, Bool.false_eq_true,
    if_false, assertDir, htake, hdrop, hget, hmk, hcr]
  cases hp : pkt.pfx with
  | none => exact ⟨d2, rfl, r3, r2, Or.inl ⟨rfl, r1⟩⟩
  | some pfx =>
    have hZ : d2 (child root ['z', 'z']) = none := by
      rw [r4 _ (child_ne _ _) zA zF]
      exact hch _
    have hL : d2 (child (child root ['z', 'z']) (digest2str pkt.md)) = none := by
      rw [r4 _ (child_child_ne _ _ _) lA lF]
      exact e4
    obtain ⟨d3, d4, hmk2, hsl, q1, q2, q3, q4⟩ :=
      link_fresh d2 root ['z', 'z'] (digest2str pkt.md)
        (['.', '.', '/'] ++ hex2 a ++ ['/'] ++ t.flatMap hex2) [hex2 a] r1 hZ hL
    have hzz : List.take 2 ['z', 'z'] = ['z', 'z'] := rfl
    simp only [disk_view_none d2 _ hL, Option.isSome_none, Bool.false_eq_true, if_false,
      hzz, hmk2, hsl]
    refine ⟨d4, rfl, ?_, ?_, Or.inr ⟨by simp, q1, q2, _, q3⟩⟩
    · rw [q4 _ (child_child_ne _ _ _) zF.symm lF.symm]
      exact r3
    · rw [q4 _ (child_ne _ _) zA.symm lA.symm]
      exact r2

/-- C18: import, index-mode scan and request by digest.  A source directory holds one
readable file with bytes `B` that parses to a packet of suite `s` with the 32-byte digest
`md`, the packet spanning the whole file (which is what `md` being the SHA-256 of the
file amounts to); the repository root is an empty directory.  Then the importer returns,
the index-mode scan of the root returns, and an Interest of suite `s` with digest
restriction `md` is answered with exactly one buffer, the bytes `B`, whose SHA-256 is
`md`. -/
theorem import_scan_serve_by_digest (c : Codec) (sha256 : Bytes → Bytes)
    (root src : Path) (name : List Char) (disk0 : Disk) (B : Bytes)
    (pkt ipkt : ccnl_pkt_s) (s skip : Int) (face : Nat) (buf : Bytes) (data datalen : Int)
    (fuel : Nat)
    (hroot : disk0 root = some (Node.dir []))
    (hempty : ∀ rel, disk0 (root ++ '/' :: rel) = none)
    (hsrc : disk0 src = some (Node.dir [name]))
    (hfile : disk0 (child src name) = some (Node.reg ⟨true, B⟩))
    (hparse : contentFile2packet c (disk_view disk0) (child src name) = some (pkt, s))
    (hsha : pkt.md = sha256 B)
    (hbuf : pkt.buf = B)
    (hlen : pkt.md.length = SHA256_DIGEST_LENGTH)
    (hdec : (decode_interest c s buf (data + skip) (datalen - skip)).1
      = some (ipkt, some pkt.md)) :
    ∃ disk1 st1 r,
      ccnl_repo256_import c root (fuel + 1) src disk0 = Run.done disk1 ∧
      walk_fs c disk1 (fuel + 2) root root (main_tables Mode.MODE_INDEX root)
        = Run.done st1 ∧
      ccnl_repo256 c (disk_view disk1) st1 face s skip buf data datalen = some r ∧
      r.repo.outq = [(face, B)] ∧ sha256 B = pkt.md := by
  obtain ⟨a, t, hmd⟩ : ∃ a t, pkt.md = a :: t := by
    cases h : pkt.md with
    | nil => rw [h] at hlen; simp [SHA256_DIGEST_LENGTH] at hlen
    | cons a t => exact ⟨a, t, rfl⟩
  have hlen2 : (a :: t).length ≤ SHA256_DIGEST_LENGTH := by
    rw [← hmd, hlen]
  obtain ⟨disk1, himp, hF, hA, hR⟩ :=
    import_file_fresh c root (child src name) disk0 pkt s a t hparse hmd hlen2 hroot hempty
  have hfn : digest2fname root pkt.md = child (child root (hex2 a)) (t.flatMap hex2) := by
    rw [hmd, digest2fname_cons root a t hlen2]
    rfl
  -- the importer
  have h1 : ccnl_repo256_import c root (fuel + 1) src disk0 = Run.done disk1 := by
    simp [ccnl_repo256_import, readdir, hsrc, hfile, node_type, himp, Run.ofOption]
  -- the scanner step on the stored file
  have hcf : contentFile2packet c (disk_view disk1) (child (child root (hex2 a))
      (t.flatMap hex2)) = some (pkt, s) := by
    rw [← hparse]
    apply contentFile2packet_congr
    rw [disk_view_reg disk1 _ _ hF, disk_view_reg disk0 _ _ hfile, hbuf]
  have hdot : ¬ ((hex2 a).head? = some '.') := by
    simp [hex2, hexdigit_ne_dot]
  have hview : disk_view disk1 (digest2fname root pkt.md) = some ⟨true, B⟩ := by
    rw [hfn, disk_view_reg disk1 _ _ hF, hbuf]
  have hserve : ∀ st1 : Repo, st1.repo_mode = Mode.MODE_INDEX → st1.theDirPath = root →
      st1.OKset = some [digest2key s pkt.md] → st1.outq = [] →
      ∃ r, ccnl_repo256 c (disk_view disk1) st1 face s skip buf data datalen = some r ∧
        r.repo.outq = [(face, B)] := by
    intro st1 hm hd hok hq
    rw [ccnl_repo256_decoded c _ st1 face s skip buf data datalen ipkt (some pkt.md) hdec]
    simp [lookup_digest, hm, hok, kh_get_256, sha256equal_self, serve_digest, hd, hview,
      ccnl_face_enqueue, hq]
  rcases hR with ⟨hp, hRoot⟩ | ⟨hp, hRoot, hZ, tgt, hL⟩
  · have hadd : add_content c (disk_view disk1) (main_tables Mode.MODE_INDEX root) root
        (child (child root (hex2 a)) (t.flatMap hex2))
        = some { main_tables Mode.MODE_INDEX root with
            OKset := some [digest2key s pkt.md] } := by
      simp [add_content, hcf, hfn, main_tables, kh_put_256, kh_get_256, hp]
    obtain ⟨r, hr, hq⟩ := hserve { main_tables Mode.MODE_INDEX root with
      OKset := some [digest2key s pkt.md] } rfl rfl rfl rfl
    refine ⟨disk1, _, r, h1, ?_, hr, hq, hsha.symm⟩
    simp [walk_fs, readdir, hRoot, hA, hF, node_type, hdot, hadd, Run.ofOption]
  · obtain ⟨pfx, hpfx⟩ := Option.ne_none_iff_exists'.mp hp
    have hadd : add_content c (disk_view disk1) (main_tables Mode.MODE_INDEX root) root
        (child (child root (hex2 a)) (t.flatMap hex2))
        = some { main_tables Mode.MODE_INDEX root with
            OKset := some [digest2key s pkt.md]
            NMmap := some [(prefix2key pfx, digest2key s pkt.md)] } := by
      simp [add_content, hcf, hfn, main_tables, kh_put_256, kh_put_256_key, kh_get_256,
        kh_get_PFX, hpfx]
    obtain ⟨r, hr, hq⟩ := hserve { main_tables Mode.MODE_INDEX root with
      OKset := some [digest2key s pkt.md]
      NMmap := some [(prefix2key pfx, digest2key s pkt.md)] } rfl rfl rfl rfl
    refine ⟨disk1, _, r, h1, ?_, hr, hq, hsha.symm⟩
    simp [walk_fs, readdir, hRoot, hA, hF, hZ, hL, node_type, hdot, hadd, Run.ofOption]
    intro hmode
    exact absurd hmode (by simp [main_tables])

theorem import_scan_serve_by_digest_witness :
    contentFile2packet toyCodec (disk_view toyDisk0) (child ['s'] ['f'])
      = some (toyContentPkt, 6) ∧
    ∃ disk1 st1 r,
      ccnl_repo256_import toyCodec toyRoot (0 + 1) ['s'] toyDisk0 = Run.done disk1 ∧
      walk_fs toyCodec disk1 (0 + 2) toyRoot toyRoot (main_tables Mode.MODE_INDEX toyRoot)
        = Run.done st1 ∧
      ccnl_repo256 toyCodec (disk_view disk1) st1 3 6 0 toyInterestByDigest 0 4 = some r ∧
      r.repo.outq = [(3, toyContent)] ∧
      (fun _ => List.replicate 32 7 : Bytes → Bytes) toyContent = toyContentPkt.md :=
  ⟨by rfl,
    import_scan_serve_by_digest toyCodec (fun _ => List.replicate 32 7) toyRoot ['s'] ['f']
      toyDisk0 toyContent toyContentPkt toyInterestByDigestPkt 6 0 3 toyInterestByDigest
      0 4 0 (by rfl) (by intro rel; simp [toyDisk0, toyRoot]) (by rfl) (by rfl) (by rfl)
      (by rfl) (by rfl) (by rfl) (by rfl)⟩

/-! ## The positive index only grows -/

theorem kh_get_256_append (ok ext : kh256) (k v : Bytes) (h : kh_get_256 ok k = some v) :
    kh_get_256 (ok ++ ext) k = some v := by
  unfold kh_get_256 at h ⊢
  rw [List.find?_append, h]
  rfl

theorem kh_put_256_append (ok : kh256) (key : Bytes) : ∃ ext, kh_put_256 ok key = ok ++ ext := by
  unfold kh_put_256
  cases kh_get_256 ok key with
  | some v => exact ⟨[], by simp⟩
  | none => exact ⟨[key], rfl⟩

/-- C24: the resolver leaves OKset and NMmap as they were, for every state, mode and
request; a scanner step only appends: the stored keys of OKset and the entries of NMmap
before the step are still there, in place, and every lookup that succeeded before the
step finds the same key or entry after it. -/
theorem positive_index_only_grows (c : Codec) (fs : FS) (st : Repo) :
    (∀ face suite skip buf data datalen r,
      ccnl_repo256 c fs st face suite skip buf data datalen = some r →
      r.repo.OKset = st.OKset ∧ r.repo.NMmap = st.NMmap) ∧
    (∀ dirpath path st2, add_content c fs st dirpath path = some st2 →
      (∀ ok, st.OKset = some ok →
        ∃ ext, st2.OKset = some (ok ++ ext) ∧
          ∀ k v, kh_get_256 ok k = some v → kh_get_256 (ok ++ ext) k = some v) ∧
      (∀ nm, st.NMmap = some nm →
        ∃ ext, st2.NMmap = some (nm ++ ext) ∧
          ∀ n e, kh_get_PFX nm n = some e → kh_get_PFX (nm ++ ext) n = some e)) := by
  constructor
  · intro face suite skip buf data datalen r hrun
    obtain ⟨-, -, h3, h4, -⟩ :=
      ccnl_repo256_effect c fs st face suite skip buf data datalen r hrun
    exact ⟨h3, h4⟩
  · intro dirpath path st2 hadd
    obtain ⟨-, -, -, -, -, -, hcase⟩ := add_content_effect c fs st st2 dirpath path hadd
    constructor
    · intro ok hok
      rcases hcase with rfl | ⟨pkt, suite, ok1, -, -, hok1, hput, -⟩
      · exact ⟨[], by simpa using hok, fun k v h => kh_get_256_append ok [] k v h⟩
      · rw [hok] at hok1
        cases hok1
        obtain ⟨ext, hext⟩ := kh_put_256_append ok (digest2key suite pkt.md)
        exact ⟨ext, by rw [hput, hext], fun k v h => kh_get_256_append ok ext k v h⟩
    · intro nm hnm
      rcases hcase with rfl | ⟨pkt, suite, ok1, -, -, -, -, hsame | ⟨pfx, nm1, -, hnm1, -, happ⟩⟩
      · exact ⟨[], by simpa using hnm, fun n e h => kh_get_PFX_append nm [] n e h⟩
      · exact ⟨[], by simpa using hsame.trans hnm,
          fun n e h => kh_get_PFX_append nm [] n e h⟩
      · rw [hnm] at hnm1
        cases hnm1
        exact ⟨_, happ, fun n e h => kh_get_PFX_append nm _ n e h⟩

theorem positive_index_only_grows_witness :
    add_content toyCodec toyFS (main_tables Mode.MODE_INDEX toyRoot) toyRoot
      (digest2fname toyRoot toyDigest) = some toyScanned ∧
    (∀ ok, (main_tables Mode.MODE_INDEX toyRoot).OKset = some ok →
      ∃ ext, toyScanned.OKset = some (ok ++ ext) ∧
        ∀ k v, kh_get_256 ok k = some v → kh_get_256 (ok ++ ext) k = some v) ∧
    (∀ nm, (main_tables Mode.MODE_INDEX toyRoot).NMmap = some nm →
      ∃ ext, toyScanned.NMmap = some (nm ++ ext) ∧
        ∀ n e, kh_get_PFX nm n = some e → kh_get_PFX (nm ++ ext) n = some e) :=
  ⟨by rfl,
    (positive_index_only_grows toyCodec toyFS (main_tables Mode.MODE_INDEX toyRoot)).2
      toyRoot (digest2fname toyRoot toyDigest) toyScanned (by rfl)⟩

/-! ## The dispatcher: suites, skip and termination -/

/-- C25: at a point of the packet loop where bytes remain, the switch headers (if any)
leave no announced suite and the suite sniffed from the remaining bytes is not one
`ccnl_isSuite` accepts, the dispatcher returns at once with the state as it was: the
resolver is not run on the remaining bytes, nothing is enqueued, no table changes. -/
theorem unknown_suite_ends_datagram (c : Codec) (fr : Framing) (fs : FS) (face : Nat)
    (buf : Bytes) (fuel : Nat) (st : Repo) (data datalen suite skip data1 len1 : Int)
    (hlen : 0 < datalen)
    (hsw : switch_loop fr buf (fuel + 1) data datalen suite = Run.done (data1, len1, -1))
    (hsniff : fr.ccnl_isSuite (c.ccnl_pkt2suite buf data1 len1).1 = false) :
    rx_loop c fr fs face buf (fuel + 1) st data datalen suite skip = Run.done st := by
  simp [rx_loop, hlen, hsw, hsniff]

theorem unknown_suite_ends_datagram_witness :
    switch_loop toyFraming [7, 7, 7] (0 + 1) 0 3 (-1) = Run.done (0, 3, -1) ∧
    toyFraming.ccnl_isSuite (toyCodec.ccnl_pkt2suite [7, 7, 7] 0 3).1 = false ∧
    rx_loop toyCodec toyFraming toyFS 3 [7, 7, 7] (0 + 1)
      (main_tables Mode.MODE_INDEX toyRoot) 0 3 (-1) 0
      = Run.done (main_tables Mode.MODE_INDEX toyRoot) :=
  ⟨by rfl, by rfl,
    unknown_suite_ends_datagram toyCodec toyFraming toyFS 3 [7, 7, 7] 0
      (main_tables Mode.MODE_INDEX toyRoot) 0 3 (-1) 0 0 3 (by decide) (by rfl) (by rfl)⟩

theorem ccnl_repo256_pkt2suite (c : Codec) (g : Bytes → Int → Int → Int × Int) (fs : FS)
    (st : Repo) (face : Nat) (suite skip : Int) (buf : Bytes) (data datalen : Int) :
    ccnl_repo256 { c with ccnl_pkt2suite := g } fs st face suite skip buf data datalen
      = ccnl_repo256 c fs st face suite skip buf data datalen := rfl

/-- C26: in an iteration of the packet loop in which a suite is already determined when
the switch headers have been read (it is not -1), `ccnl_pkt2suite` has no say: whatever
function stands in its place, the packet is handed to the resolver with that suite and
the value `skip` of the previous iteration, and the loop goes on with both.  Without a
switch header before the packet the suite is the one of the previous packet. -/
theorem later_packets_keep_suite_and_skip (c : Codec) (g : Bytes → Int → Int → Int × Int)
    (fr : Framing) (fs : FS) (face : Nat) (buf : Bytes) (fuel : Nat) (st : Repo)
    (data datalen suite skip data1 len1 suite1 : Int)
    (hlen : 0 < datalen)
    (hsw : switch_loop fr buf (fuel + 1) data datalen suite = Run.done (data1, len1, suite1))
    (hs : suite1 ≠ -1) :
    rx_loop { c with ccnl_pkt2suite := g } fr fs face buf (fuel + 1) st data datalen
        suite skip
      = (if fr.ccnl_isSuite suite1 = false then Run.done st
         else
          match ccnl_repo256 c fs st face suite1 skip buf data1 len1 with
          | none => Run.aborted
          | some r =>
            if r.rc < 0 then Run.done r.repo
            else rx_loop { c with ccnl_pkt2suite := g } fr fs face buf fuel r.repo
              r.data r.datalen suite1 skip) ∧
    (fr.ccnl_switch_dehead buf data datalen = none →
      data1 = data ∧ len1 = datalen ∧ suite1 = suite) := by
  constructor
  · simp only [rx_loop, hlen, hsw, hs, gt_iff_lt, if_true, if_false, ite_true, ite_false,
      ccnl_repo256_pkt2suite]
  · intro hnone
    simp only [switch_loop, hnone, Run.done.injEq, Prod.mk.injEq] at hsw
    exact ⟨hsw.1.symm, hsw.2.1.symm, hsw.2.2.symm⟩

theorem later_packets_keep_suite_and_skip_witness :
    switch_loop toyFraming [6, 5, 1, 7, 6, 5, 1, 6] (1 + 1) 4 4 6 = Run.done (4, 4, 6) ∧
    rx_loop { toyCodec with ccnl_pkt2suite := fun _ _ _ => (2, 1) } toyFraming toyTwoFS 3
        [6, 5, 1, 7, 6, 5, 1, 6] (1 + 1) (main_tables Mode.MODE_FILE toyRoot) 4 4 6 0
      = (if toyFraming.ccnl_isSuite 6 = false then
          Run.done (main_tables Mode.MODE_FILE toyRoot)
         else
          match ccnl_repo256 toyCodec toyTwoFS (main_tables Mode.MODE_FILE toyRoot) 3 6 0
            [6, 5, 1, 7, 6, 5, 1, 6] 4 4 with
          | none => Run.aborted
          | some r =>
            if r.rc < 0 then Run.done r.repo
            else rx_loop { toyCodec with ccnl_pkt2suite := fun _ _ _ => (2, 1) } toyFraming
              toyTwoFS 3 [6, 5, 1, 7, 6, 5, 1, 6] 1 r.repo r.data r.datalen 6 0) :=
  ⟨by rfl,
    (later_packets_keep_suite_and_skip toyCodec (fun _ _ _ => (2, 1)) toyFraming toyTwoFS 3
      [6, 5, 1, 7, 6, 5, 1, 6] 1 (main_tables Mode.MODE_FILE toyRoot) 4 4 6 0 4 4 6
      (by decide) (by rfl) (by decide)).1⟩

/-- A non-negative return code of the resolver means that the request was decoded to a
packet; the advanced `data` and `datalen` are those the decoding left. -/
theorem ccnl_repo256_rc_nonneg (c : Codec) (fs : FS) (st : Repo) (face : Nat)
    (suite skip : Int) (buf : Bytes) (data datalen : Int) (r : Result)
    (hrun : ccnl_repo256 c fs st face suite skip buf data datalen = some r)
    (hrc : ¬ r.rc < 0) :
    ∃ pkt req, decode_interest c suite buf (data + skip) (datalen - skip)
      = (some (pkt, req), r.data, r.datalen) := by
  unfold ccnl_repo256 at hrun
  rcases hd : decode_interest c suite buf (data + skip) (datalen - skip) with ⟨o, d1, l1⟩
  rw [hd] at hrun
  cases o with
  | none =>
    simp only [Option.some.injEq] at hrun
    subst hrun
    exact (hrc (by show (-1 : Int) < 0; decide)).elim
  | some pr =>
    obtain ⟨pkt, req⟩ := pr
    simp only at hrun
    refine ⟨pkt, req, ?_⟩
    cases hl : lookup_digest st suite pkt req with
    | none => rw [hl] at hrun; simp at hrun
    | some l =>
      rw [hl] at hrun
      cases l with
      | done =>
        simp only [Option.some.injEq] at hrun
        subst hrun
        rfl
      | digest od =>
        cases od with
        | none =>
          simp only [Option.some.injEq] at hrun
          subst hrun
          rfl
        | some d =>
          simp only [Option.map_eq_some'] at hrun
          obtain ⟨res, -, rfl⟩ := hrun
          rfl

/-- The switch-header loop comes to an end when every header it reads takes at least one
of the remaining bytes. -/
theorem switch_loop_terminates (fr : Framing) (buf : Bytes)
    (hfr : ∀ data len d l enc, fr.ccnl_switch_dehead buf data len = some (d, l, enc) →
      0 ≤ l ∧ l < len)
    (fuel : Nat) (data len suite : Int) (hfuel : len.toNat + 1 ≤ fuel) :
    ∃ d l s, switch_loop fr buf fuel data len suite = Run.done (d, l, s) ∧ l ≤ len := by
  induction fuel generalizing data len suite with
  | zero => omega
  | succ n ih =>
    cases hd : fr.ccnl_switch_dehead buf data len with
    | none => exact ⟨data, len, suite, by simp [switch_loop, hd], le_refl _⟩
    | some res =>
      obtain ⟨d2, l2, enc⟩ := res
      obtain ⟨h0, h1⟩ := hfr data len d2 l2 enc hd
      obtain ⟨d, l, s, hrun, hle⟩ := ih d2 l2 (fr.ccnl_enc2suite enc) (by omega)
      exact ⟨d, l, s, by simp [switch_loop, hd, hrun], by omega⟩

/-- One iteration of the packet loop: it returns, or has no defined result, or goes on
with fewer remaining bytes and a non-negative `skip`. -/
theorem rx_loop_step (c : Codec) (fr : Framing) (fs : FS) (face : Nat) (buf : Bytes)
    (hdec : ∀ suite start len pkt req d l,
      decode_interest c suite buf start len = (some (pkt, req), d, l) → l < len)
    (hfr : ∀ data len d l enc, fr.ccnl_switch_dehead buf data len = some (d, l, enc) →
      0 ≤ l ∧ l < len)
    (hsniff : ∀ data len, 0 ≤ (c.ccnl_pkt2suite buf data len).2)
    (fuel : Nat) (st : Repo) (data datalen suite skip : Int)
    (hskip : 0 ≤ skip) (hfuel : datalen.toNat + 1 ≤ fuel + 1) :
    (∃ st2, rx_loop c fr fs face buf (fuel + 1) st data datalen suite skip = Run.done st2) ∨
    rx_loop c fr fs face buf (fuel + 1) st data datalen suite skip = Run.aborted ∨
    ∃ st2 data2 len2 suite2 skip2, len2 < datalen ∧ 0 < datalen ∧ 0 ≤ skip2 ∧
      rx_loop c fr fs face buf (fuel + 1) st data datalen suite skip
        = rx_loop c fr fs face buf fuel st2 data2 len2 suite2 skip2 := by
  by_cases hlen : 0 < datalen
  · obtain ⟨d1, l1, s1, hsw, hle⟩ :=
      switch_loop_terminates fr buf hfr (fuel + 1) data datalen suite hfuel
    have hk : 0 ≤ (if s1 = -1 then c.ccnl_pkt2suite buf d1 l1 else (s1, skip)).2 := by
      split
      · exact hsniff d1 l1
      · exact hskip
    simp only [rx_loop, hlen, hsw, gt_iff_lt, if_true]
    generalize (if s1 = -1 then c.ccnl_pkt2suite buf d1 l1 else (s1, skip)) = ss at hk ⊢
    by_cases his : fr.ccnl_isSuite ss.1 = false
    · exact Or.inl ⟨st, by simp [his]⟩
    · simp only [his, if_false]
      cases hrun : ccnl_repo256 c fs st face ss.1 ss.2 buf d1 l1 with
      | none => exact Or.inr (Or.inl rfl)
      | some r =>
        simp only
        by_cases hrc : r.rc < 0
        · exact Or.inl ⟨r.repo, by simp [hrc]⟩
        · obtain ⟨pkt, req, hd⟩ :=
            ccnl_repo256_rc_nonneg c fs st face ss.1 ss.2 buf d1 l1 r hrun hrc
          have := hdec ss.1 (d1 + ss.2) (l1 - ss.2) pkt req r.data r.datalen hd
          exact Or.inr (Or.inr ⟨r.repo, r.data, r.datalen, ss.1, ss.2, by omega, trivial, hk,
            by simp [hrc]⟩)
  · exact Or.inl ⟨st, by simp [rx_loop, hlen]⟩

/-- C27: if every decoding that yields a packet leaves fewer bytes than it was given,
every switch header read takes at least one of the remaining bytes, and `skip` is never
negative, then each iteration of the packet loop returns, breaks, or goes on with
strictly fewer remaining bytes, and the loop of `ccnl_repo_RX` comes to an end for every
datagram: a bound of `datalen + 1` iterations is never used up. -/
theorem packet_loop_terminates (c : Codec) (fr : Framing) (fs : FS) (st : Repo)
    (face : Option Nat) (buf : Bytes) (datalen skip0 : Int)
    (hdec : ∀ suite start len pkt req d l,
      decode_interest c suite buf start len = (some (pkt, req), d, l) → l < len)
    (hfr : ∀ data len d l enc, fr.ccnl_switch_dehead buf data len = some (d, l, enc) →
      0 ≤ l ∧ l < len)
    (hsniff : ∀ data len, 0 ≤ (c.ccnl_pkt2suite buf data len).2)
    (hskip : 0 ≤ skip0) :
    (∀ f fuel st1 data len suite skip, 0 ≤ skip → len.toNat + 1 ≤ fuel + 1 →
      (∃ st2, rx_loop c fr fs f buf (fuel + 1) st1 data len suite skip = Run.done st2) ∨
      rx_loop c fr fs f buf (fuel + 1) st1 data len suite skip = Run.aborted ∨
      ∃ st2 data2 len2 suite2 skip2, len2 < len ∧ 0 < len ∧ 0 ≤ skip2 ∧
        rx_loop c fr fs f buf (fuel + 1) st1 data len suite skip
          = rx_loop c fr fs f buf fuel st2 data2 len2 suite2 skip2) ∧
    (∀ fuel, datalen.toNat + 1 ≤ fuel →
      ccnl_repo_RX c fr fs st face buf datalen skip0 fuel ≠ Run.out_of_fuel) := by
  refine ⟨fun f fuel st1 data len suite skip hk hf =>
    rx_loop_step c fr fs f buf hdec hfr hsniff fuel st1 data len suite skip hk hf, ?_⟩
  intro fuel hfuel
  cases face with
  | none => simp [ccnl_repo_RX]
  | some f =>
    simp only [ccnl_repo_RX]
    have key : ∀ (n : Nat) (st1 : Repo) (data len suite skip : Int), 0 ≤ skip →
        len.toNat + 1 ≤ n →
        rx_loop c fr fs f buf n st1 data len suite skip ≠ Run.out_of_fuel := by
      intro n
      induction n with
      | zero => intro st1 data len suite skip _ h; omega
      | succ m ih =>
        intro st1 data len suite skip hk hf
        rcases rx_loop_step c fr fs f buf hdec hfr hsniff m st1 data len suite skip hk hf
          with ⟨st2, h⟩ | h | ⟨st2, d2, l2, s2, k2, hlt, hpos, hk2, h⟩
        · rw [h]; simp
        · rw [h]; simp
        · rw [h]
          exact ih st2 d2 l2 s2 k2 hk2 (by omega)
    exact key fuel st 0 datalen (-1) skip0 hskip hfuel

theorem toy_bytes2pkt_consumes (marker : Nat) (buf : Bytes) (start data len : Int)
    (pkt : ccnl_pkt_s) (d l : Int)
    (h : toy_bytes2pkt marker buf start data len = (some pkt, d, l)) : l < len := by
  unfold toy_bytes2pkt at h
  split at h
  · simp at h
  · split at h
    · split at h
      · simp only [Prod.mk.injEq] at h
        omega
      · simp at h
    · simp at h

theorem toy_decode_consumes (buf : Bytes) (suite start len : Int) (pkt : ccnl_pkt_s)
    (req : Option Bytes) (d l : Int)
    (h : decode_interest toyCodec suite buf start len = (some (pkt, req), d, l)) :
    l < len := by
  unfold decode_interest at h
  split at h
  · simp only [toyCodec] at h
    rcases hp : toy_bytes2pkt 2 buf start (start + 0) (len - 0) with ⟨o, d1, l1⟩
    rw [hp] at h
    cases o with
    | none => simp at h
    | some p =>
      have := toy_bytes2pkt_consumes 2 buf start (start + 0) (len - 0) p d1 l1 hp
      simp only at h
      split at h
      · simp at h
      · simp only [Prod.mk.injEq] at h
        omega
  · split at h
    · simp only [toyCodec] at h
      rcases hp : toy_bytes2pkt 6 buf start start len with ⟨o, d1, l1⟩
      rw [hp] at h
      cases o with
      | none => simp at h
      | some p =>
        have := toy_bytes2pkt_consumes 6 buf start start len p d1 l1 hp
        simp only at h
        split at h
        · simp at h
        · simp only [Prod.mk.injEq] at h
          omega
    · simp at h

theorem toy_switch_consumes (buf : Bytes) (data len d l enc : Int)
    (h : toyFraming.ccnl_switch_dehead buf data len = some (d, l, enc)) :
    0 ≤ l ∧ l < len := by
  simp only [toyFraming] at h
  split at h
  · simp at h
  · rename_i hcond
    split at h
    · split at h
      · simp only [Option.some.injEq, Prod.mk.injEq] at h
        omega
      · simp at h
    · simp at h

theorem packet_loop_terminates_witness :
    (0 : Int) ≤ 0 ∧
    ∀ fuel, (8 : Int).toNat + 1 ≤ fuel →
      ccnl_repo_RX toyCodec toyFraming toyTwoFS (main_tables Mode.MODE_FILE toyRoot)
        (some 3) [6, 5, 1, 7, 6, 5, 1, 6] 8 0 fuel ≠ Run.out_of_fuel :=
  ⟨le_refl _,
    (packet_loop_terminates toyCodec toyFraming toyTwoFS (main_tables Mode.MODE_FILE toyRoot)
      (some 3) [6, 5, 1, 7, 6, 5, 1, 6] 8 0
      (fun suite start len pkt req d l h =>
        toy_decode_consumes _ suite start len pkt req d l h)
      (fun data len d l enc h => toy_switch_consumes _ data len d l enc h)
      (fun data len => by
        simp only [toyCodec, toy_pkt2suite]
        split <;> decide)
      (le_refl _)).2⟩

/-! ## Scanning twice -/

theorem TablesExtend_refl (st : Repo) : TablesExtend st st :=
  ⟨rfl, fun ok h => ⟨[], by simpa using h⟩, fun nm h => ⟨[], by simpa using h⟩⟩

theorem TablesExtend_trans (a b d : Repo) (h1 : TablesExtend a b) (h2 : TablesExtend b d) :
    TablesExtend a d := by
  refine ⟨h2.1.trans h1.1, fun ok h => ?_, fun nm h => ?_⟩
  · obtain ⟨e1, he1⟩ := h1.2.1 ok h
    obtain ⟨e2, he2⟩ := h2.2.1 _ he1
    exact ⟨e1 ++ e2, by rw [he2, List.append_assoc]⟩
  · obtain ⟨e1, he1⟩ := h1.2.2 nm h
    obtain ⟨e2, he2⟩ := h2.2.2 _ he1
    exact ⟨e1 ++ e2, by rw [he2, List.append_assoc]⟩

theorem add_content_extends (c : Codec) (fs : FS) (st st1 : Repo) (dirpath path : Path)
    (h : add_content c fs st dirpath path = some st1) : TablesExtend st st1 := by
  obtain ⟨hm, -, -, -, -, -, hcase⟩ := add_content_effect c fs st st1 dirpath path h
  refine ⟨hm, fun ok hok => ?_, fun nm hnm => ?_⟩
  · rcases hcase with rfl | ⟨pkt, suite, ok1, -, -, hok1, hput, -⟩
    · exact ⟨[], by simpa using hok⟩
    · rw [hok] at hok1
      cases hok1
      obtain ⟨ext, hext⟩ := kh_put_256_append ok (digest2key suite pkt.md)
      exact ⟨ext, by rw [hput, hext]⟩
  · rcases hcase with rfl | ⟨pkt, suite, ok1, -, -, -, -, hsame | ⟨pfx, nm1, -, hnm1, -, happ⟩⟩
    · exact ⟨[], by simpa using hnm⟩
    · exact ⟨[], by simpa using hsame.trans hnm⟩
    · rw [hnm] at hnm1
      cases hnm1
      exact ⟨_, happ⟩

theorem kh_put_256_found (ok : kh256) (key : Bytes)
    (h : (kh_get_256 ok key).isSome = true) : kh_put_256 ok key = ok := by
  unfold kh_put_256
  cases hg : kh_get_256 ok key with
  | some v => rfl
  | none => rw [hg] at h; simp at h

theorem kh_get_256_put_append (ok ext : kh256) (key : Bytes) :
    (kh_get_256 (kh_put_256 ok key ++ ext) key).isSome = true := by
  obtain ⟨v, hv⟩ := Option.isSome_iff_exists.mp (kh_get_256_put ok key)
  rw [kh_get_256_append _ ext key v hv]
  rfl

/-- A scanner step that has been made changes nothing when it is made again, in the
state it produced or in any state whose tables extend that one. -/
theorem add_content_settled (c : Codec) (fs : FS) (st st1 st2 : Repo) (dirpath path : Path)
    (h : add_content c fs st dirpath path = some st1) (hext : TablesExtend st1 st2) :
    add_content c fs st2 dirpath path = some st2 := by
  obtain ⟨hmode, hokx, hnmx⟩ := hext
  have hm1 : st1.repo_mode = st.repo_mode :=
    (add_content_effect c fs st st1 dirpath path h).1
  unfold add_content at h ⊢
  cases hc : contentFile2packet c fs path with
  | none => rfl
  | some ps =>
    obtain ⟨pkt, suite⟩ := ps
    rw [hc] at h
    simp only at h ⊢
    by_cases hi : st.repo_mode = Mode.MODE_INDEX ∧ digest2fname dirpath pkt.md ≠ path
    · have hi2 : st2.repo_mode = Mode.MODE_INDEX ∧ digest2fname dirpath pkt.md ≠ path :=
        ⟨by rw [hmode, hm1]; exact hi.1, hi.2⟩
      rw [if_pos hi2]
    · have hi2 : ¬ (st2.repo_mode = Mode.MODE_INDEX ∧ digest2fname dirpath pkt.md ≠ path) := by
        rw [hmode, hm1]
        exact hi
      rw [if_neg hi] at h
      rw [if_neg hi2]
      cases hok : st.OKset with
      | none => rw [hok] at h; simp at h
      | some ok =>
        rw [hok] at h
        simp only at h
        have hstruct : ∀ (s : Repo) (o : kh256), s.OKset = some o →
            ({ s with OKset := some o } : Repo) = s := by
          intro s o ho
          cases s
          simp only at ho
          subst ho
          rfl
        have hstruct2 : ∀ (s : Repo) (o : kh256) (n : khPFX), s.OKset = some o →
            s.NMmap = some n → ({ s with OKset := some o, NMmap := some n } : Repo) = s := by
          intro s o n ho hn
          cases s
          simp only at ho hn
          subst ho
          subst hn
          rfl
        cases hp : pkt.pfx with
        | none =>
          rw [hp] at h
          simp only [Option.some.injEq] at h
          subst h
          obtain ⟨ext, hext⟩ := hokx _ rfl
          rw [hext]
          simp only
          rw [kh_put_256_found _ _ (kh_get_256_put_append ok ext _)]
          exact congrArg some (hstruct st2 _ hext)
        | some pfx =>
          rw [hp] at h
          simp only at h
          cases hnm : st.NMmap with
          | none => rw [hnm] at h; simp at h
          | some nm =>
            rw [hnm] at h
            simp only at h
            cases hg : kh_get_PFX nm (prefix2key pfx) with
            | some e =>
              rw [hg] at h
              simp only [Option.some.injEq] at h
              subst h
              obtain ⟨ext, hext⟩ := hokx _ rfl
              obtain ⟨ext2, hext2⟩ := hnmx nm rfl
              rw [hext, hext2]
              simp only
              rw [kh_put_256_found _ _ (kh_get_256_put_append ok ext _),
                kh_get_PFX_append nm ext2 _ e hg]
              exact congrArg some (hstruct2 st2 _ _ hext hext2)
            | none =>
              rw [hg] at h
              simp only [Option.some.injEq] at h
              subst h
              obtain ⟨ext, hext⟩ := hokx _ rfl
              obtain ⟨ext2, hext2⟩ := hnmx _ rfl
              rw [hext, hext2]
              simp only
              rw [kh_put_256_found _ _ (kh_get_256_put_append ok ext _),
                kh_get_PFX_append _ ext2 _ _ (kh_get_PFX_append_new nm _ _ hg)]
              exact congrArg some (hstruct2 st2 _ _ hext hext2)

theorem scan_paths_settled (c : Codec) (fs : FS) (dirpath : Path) (paths : List Path)
    (st st1 : Repo) (h : scan_paths c fs dirpath paths st = some st1) :
    TablesExtend st st1 ∧
    ∀ p ∈ paths, ∀ st2, TablesExtend st1 st2 → add_content c fs st2 dirpath p = some st2 := by
  induction paths generalizing st with
  | nil =>
    simp only [scan_paths, Option.some.injEq] at h
    subst h
    exact ⟨TablesExtend_refl st, fun p hp => by simp at hp⟩
  | cons q rest ih =>
    simp only [scan_paths] at h
    cases h1 : add_content c fs st dirpath q with
    | none => rw [h1] at h; simp at h
    | some sq =>
      rw [h1] at h
      obtain ⟨hext, hrest⟩ := ih sq h
      have hq := add_content_extends c fs st sq dirpath q h1
      refine ⟨TablesExtend_trans _ _ _ hq hext, fun p hp st2 h2 => ?_⟩
      rcases List.mem_cons.mp hp with rfl | hp
      · exact add_content_settled c fs st sq st2 dirpath p h1
          (TablesExtend_trans _ _ _ hext h2)
      · exact hrest p hp st2 h2

theorem scan_paths_fixed (c : Codec) (fs : FS) (dirpath : Path) (paths : List Path)
    (st : Repo) (h : ∀ p ∈ paths, add_content c fs st dirpath p = some st) :
    scan_paths c fs dirpath paths st = some st := by
  induction paths with
  | nil => rfl
  | cons q rest ih =>
    simp only [scan_paths, h q (List.mem_cons_self _ _)]
    exact ih (fun p hp => h p (List.mem_cons_of_mem _ hp))

/-- C22: for every state with allocated tables and every list of files, the scan (the
scanner steps over the files, in order) returns a state, and run a second time on that
state over the same files in the same order it returns the very same state: OKset and
NMmap are exactly as they were after the first scan. -/
theorem scan_twice_same_index (c : Codec) (fs : FS) (dirpath : Path) (paths : List Path)
    (st : Repo) (hok : st.OKset.isSome = true) (hnm : st.NMmap.isSome = true) :
    ∃ st1, scan_paths c fs dirpath paths st = some st1 ∧
      ∃ st2, scan_paths c fs dirpath paths st1 = some st2 ∧
        st2.OKset = st1.OKset ∧ st2.NMmap = st1.NMmap ∧ st2 = st1 := by
  obtain ⟨st1, h1, -, -⟩ := scan_paths_total c fs dirpath paths st hok hnm
  obtain ⟨-, hset⟩ := scan_paths_settled c fs dirpath paths st st1 h1
  exact ⟨st1, h1, st1,
    scan_paths_fixed c fs dirpath paths st1
      (fun p hp => hset p hp st1 (TablesExtend_refl st1)), rfl, rfl, rfl⟩

theorem scan_twice_same_index_witness :
    (main_tables Mode.MODE_INDEX toyRoot).OKset.isSome = true ∧
    ∃ st1, scan_paths toyCodec toyTwoFS toyRoot
        [digest2fname toyRoot toyDigest, digest2fname toyRoot (List.replicate 32 6)]
        (main_tables Mode.MODE_INDEX toyRoot) = some st1 ∧
      ∃ st2, scan_paths toyCodec toyTwoFS toyRoot
          [digest2fname toyRoot toyDigest, digest2fname toyRoot (List.replicate 32 6)]
          st1 = some st2 ∧
        st2.OKset = st1.OKset ∧ st2.NMmap = st1.NMmap ∧ st2 = st1 :=
  ⟨rfl, scan_twice_same_index toyCodec toyTwoFS toyRoot
    [digest2fname toyRoot toyDigest, digest2fname toyRoot (List.replicate 32 6)]
    (main_tables Mode.MODE_INDEX toyRoot) rfl rfl⟩

/-! ## The scan as a sequence of scanner steps -/

end Repo256
